import Mathlib

/-!
Verification of the rebuild pipeline of `unplugin-vue-i18n-dts-generation`
(`src/core/rebuild-manager.ts`), with the canonicalizer (`src/utils`, spec §4.1)
and the JSON round-trip contract (spec §6) modelled from the specification.

The development shallowly embeds:
* the JSON-like locale documents (`JSONValue` in `src/types`),
* the canonicalizer contract of spec §4.1 (the `canonicalize` source file is
  not part of the provided sources),
* `JSON.stringify` / `JSON.parse` (platform functions, modelled from the spec's
  round-trip contract, restricted to integer numerals),
* `RebuildManager.invalidateModule`, `RebuildManager.rebuild` and the
  debounce state machine of `RebuildManager.debouncedRebuild`.
-/

/-- Modelled from the spec (§3) and the repository's `JSONValue` type
(`src/types`, re-exported but not included under `src/`): an acyclic JSON-like
value. Objects are ordered association lists (JavaScript objects cannot carry
duplicate keys; the `NodupKeys` predicate below captures that restriction), and
numbers are restricted to integers, which suffices for locale-message
documents. -/
inductive JSONValue where
  | null
  | boolean (b : Bool)
  | num (n : Int)
  | str (s : String)
  | arr (xs : List JSONValue)
  | obj (xs : List (String × JSONValue))

/-- Lexicographic comparison of character lists by code point, the order JS
`Array.prototype.sort()` applies to the keys of a locale document. -/
def lexLe : List Char → List Char → Bool
  | [], _ => true
  | _ :: _, [] => false
  | p :: ps, q :: qs =>
    if p.toNat < q.toNat then true
    else if q.toNat < p.toNat then false
    else lexLe ps qs

/-- String comparison used to sort object keys. -/
def strLe (a b : String) : Bool := lexLe a.data b.data

/-- Key order on object entries: compare the keys only. -/
def keyLe (a b : String × JSONValue) : Bool := strLe a.1 b.1

/-- Insert an entry into a key-sorted entry list, keeping it sorted. -/
def insertEntry (x : String × JSONValue) : List (String × JSONValue) → List (String × JSONValue)
  | [] => [x]
  | y :: ys => if keyLe x y then x :: y :: ys else y :: insertEntry x ys

/-- Insertion sort of object entries by key (a stable sort into the total,
deterministic key order the spec (§3, §4.1) requires). -/
def sortEntries : List (String × JSONValue) → List (String × JSONValue)
  | [] => []
  | x :: xs => insertEntry x (sortEntries xs)

mutual
/-- Modelled from the spec (§4.1): `canonicalize` (imported by
`rebuild-manager.ts` from `src/utils`, a file not included under `src/`).
"For a mapping, emits a new mapping containing the same key/value pairs with
keys visited in sorted order, each value recursively canonicalized. For a
sequence, emits a new sequence of the same length with each element recursively
canonicalized, preserving original element order. For scalars, returns the
value unchanged." -/
def canonicalize : JSONValue → JSONValue
  | .null => .null
  | .boolean b => .boolean b
  | .num n => .num n
  | .str s => .str s
  | .arr xs => .arr (canonicalizeList xs)
  | .obj xs => .obj (sortEntries (canonicalizeEntries xs))

/-- Elementwise canonicalization of a sequence (order preserved). -/
def canonicalizeList : List JSONValue → List JSONValue
  | [] => []
  | x :: xs => canonicalize x :: canonicalizeList xs

/-- Canonicalization of the values of an entry list (keys untouched). -/
def canonicalizeEntries : List (String × JSONValue) → List (String × JSONValue)
  | [] => []
  | (k, v) :: xs => (k, canonicalize v) :: canonicalizeEntries xs
end

mutual
/-- No mapping anywhere in the value has two entries with the same key.
JavaScript objects satisfy this by construction; the association-list embedding
has to state it. -/
def NodupKeys : JSONValue → Prop
  | .null => True
  | .boolean _ => True
  | .num _ => True
  | .str _ => True
  | .arr xs => NodupKeysList xs
  | .obj xs => List.Pairwise (fun a b => a.1 ≠ b.1) xs ∧ NodupKeysEntries xs

/-- `NodupKeys` for every element of a sequence. -/
def NodupKeysList : List JSONValue → Prop
  | [] => True
  | x :: xs => NodupKeys x ∧ NodupKeysList xs

/-- `NodupKeys` for every value of an entry list. -/
def NodupKeysEntries : List (String × JSONValue) → Prop
  | [] => True
  | (_, v) :: xs => NodupKeys v ∧ NodupKeysEntries xs
end

mutual
/-- Equality of JSON-like values "as unordered trees" (spec §3): scalars must
coincide, sequences must match elementwise in order, and mappings must carry
the same key/value pairs up to a permutation of the entry list. -/
inductive UnorderedEq : JSONValue → JSONValue → Prop
  | null : UnorderedEq .null .null
  | boolean (b : Bool) : UnorderedEq (.boolean b) (.boolean b)
  | num (n : Int) : UnorderedEq (.num n) (.num n)
  | str (s : String) : UnorderedEq (.str s) (.str s)
  | arr {xs ys : List JSONValue} : UnorderedEqList xs ys →
      UnorderedEq (.arr xs) (.arr ys)
  | obj {xs zs ys : List (String × JSONValue)} : UnorderedEqEntries xs zs →
      List.Perm zs ys → UnorderedEq (.obj xs) (.obj ys)

/-- Elementwise `UnorderedEq` on sequences. -/
inductive UnorderedEqList : List JSONValue → List JSONValue → Prop
  | nil : UnorderedEqList [] []
  | cons {x y xs ys} : UnorderedEq x y → UnorderedEqList xs ys →
      UnorderedEqList (x :: xs) (y :: ys)

/-- Entrywise `UnorderedEq` on entry lists: equal keys, related values. -/
inductive UnorderedEqEntries :
    List (String × JSONValue) → List (String × JSONValue) → Prop
  | nil : UnorderedEqEntries [] []
  | cons {k v w xs ys} : UnorderedEq v w → UnorderedEqEntries xs ys →
      UnorderedEqEntries ((k, v) :: xs) ((k, w) :: ys)
end

/-- Decimal digit to its character, as emitted by `JSON.stringify`. -/
def digitChar (d : Nat) : Char := Char.ofNat (48 + d)

/-- Big-endian decimal digit list of a natural number (`0` prints as `[0]`). -/
def decDigits (m : Nat) : List Nat :=
  if m = 0 then [0] else (Nat.digits 10 m).reverse

/-- Decimal character rendering of a natural number. -/
def natChars (m : Nat) : List Char := (decDigits m).map digitChar

/-- Modelled from the spec (§6): `JSON.stringify` of an integer number. -/
def intChars (n : Int) : List Char :=
  if n < 0 then '-' :: natChars n.natAbs else natChars n.natAbs

/-- Lower-case hexadecimal digit character (`JSON.stringify` emits lower-case
hex in its `\u00xx` escapes). -/
def hexDigitChar (d : Nat) : Char :=
  if d < 10 then digitChar d else Char.ofNat (87 + d)

/-- The `\u00xx` escape of a control character's code point `n < 32`. -/
def uEscape (n : Nat) : List Char :=
  '\\' :: 'u' :: '0' :: '0' :: hexDigitChar (n / 16) :: [hexDigitChar (n % 16)]

/-- Modelled from the spec (§6): the string escaping `JSON.stringify` applies
to one character: quote and backslash get a backslash escape, the named
control characters get their short escapes, every other control character a
`\u00xx` escape, and all remaining characters stand for themselves. -/
def escChar (c : Char) : List Char :=
  if c = '"' then ['\\', '"']
  else if c = '\\' then ['\\', '\\']
  else if c.toNat = 8 then ['\\', 'b']
  else if c.toNat = 9 then ['\\', 't']
  else if c.toNat = 10 then ['\\', 'n']
  else if c.toNat = 12 then ['\\', 'f']
  else if c.toNat = 13 then ['\\', 'r']
  else if c.toNat < 32 then uEscape c.toNat
  else [c]

/-- Escape every character of a string body. -/
def escChars : List Char → List Char
  | [] => []
  | c :: cs => escChar c ++ escChars cs

/-- A JSON string literal: quote, escaped body, quote. -/
def strChars (s : String) : List Char := '"' :: (escChars s.data ++ ['"'])

mutual
/-- Modelled from the spec (§6): `JSON.stringify` without spacing, as the
rebuild pipeline calls it (`JSON.stringify(groupedCache)` at
`rebuild-manager.ts:92`), rendered as a character list. -/
def stringifyChars : JSONValue → List Char
  | .null => ['n', 'u', 'l', 'l']
  | .boolean true => ['t', 'r', 'u', 'e']
  | .boolean false => ['f', 'a', 'l', 's', 'e']
  | .num n => intChars n
  | .str s => strChars s
  | .arr xs => '[' :: (stringifyArr xs ++ [']'])
  | .obj xs => '\x7b' :: (stringifyObj xs ++ ['\x7d'])

/-- Comma-separated rendering of array elements. -/
def stringifyArr : List JSONValue → List Char
  | [] => []
  | [x] => stringifyChars x
  | x :: y :: ys => stringifyChars x ++ ',' :: stringifyArr (y :: ys)

/-- Comma-separated rendering of object members (`"key":value`). -/
def stringifyObj : List (String × JSONValue) → List Char
  | [] => []
  | [(k, v)] => strChars k ++ ':' :: stringifyChars v
  | (k, v) :: e :: es => strChars k ++ ':' :: stringifyChars v ++ ',' :: stringifyObj (e :: es)
end

/-- `JSON.stringify` as a string-valued function. -/
def stringify (d : JSONValue) : String := String.mk (stringifyChars d)

/-- JSON insignificant whitespace characters. -/
def isWsChar (c : Char) : Bool := c = ' ' || c = '\t' || c = '\n' || c = '\r'

/-- Drop leading insignificant whitespace. -/
def skipWs : List Char → List Char
  | [] => []
  | c :: cs => if isWsChar c then skipWs cs else c :: cs

/-- Value of a hexadecimal digit character (both cases), if any. -/
def hexVal (c : Char) : Option Nat :=
  if 48 ≤ c.toNat ∧ c.toNat ≤ 57 then some (c.toNat - 48)
  else if 97 ≤ c.toNat ∧ c.toNat ≤ 102 then some (c.toNat - 87)
  else if 65 ≤ c.toNat ∧ c.toNat ≤ 70 then some (c.toNat - 55)
  else none

/-- Modelled from the spec (§6): `JSON.parse` of a string body after the
opening quote. Returns the decoded characters and the input following the
closing quote. Unescaped control characters are rejected, escape sequences are
decoded (`\u` escapes via scalar values, which covers the Basic Multilingual
Plane encodings `JSON.stringify` emits). The fuel only bounds the recursion
depth; every step consumes at least one input character, so callers pass one
more than the remaining input length and the bound never truncates a parse. -/
def parseStrChars : Nat → List Char → Option (List Char × List Char)
  | 0, _ => none
  | _ + 1, [] => none
  | fuel + 1, c :: cs =>
    if c = '"' then some ([], cs)
    else if c = '\\' then
      match cs with
      | [] => none
      | e :: cs2 =>
        if e = '"' then (fun p => ('"' :: p.1, p.2)) <$> parseStrChars fuel cs2
        else if e = '\\' then (fun p => ('\\' :: p.1, p.2)) <$> parseStrChars fuel cs2
        else if e = '/' then (fun p => ('/' :: p.1, p.2)) <$> parseStrChars fuel cs2
        else if e = 'b' then (fun p => (Char.ofNat 8 :: p.1, p.2)) <$> parseStrChars fuel cs2
        else if e = 't' then (fun p => ('\t' :: p.1, p.2)) <$> parseStrChars fuel cs2
        else if e = 'n' then (fun p => ('\n' :: p.1, p.2)) <$> parseStrChars fuel cs2
        else if e = 'f' then (fun p => (Char.ofNat 12 :: p.1, p.2)) <$> parseStrChars fuel cs2
        else if e = 'r' then (fun p => ('\r' :: p.1, p.2)) <$> parseStrChars fuel cs2
        else if e = 'u' then
          match cs2 with
          | h1 :: h2 :: h3 :: h4 :: cs3 =>
            match hexVal h1, hexVal h2, hexVal h3, hexVal h4 with
            | some a, some b, some c3, some d =>
              (fun p => (Char.ofNat (((a * 16 + b) * 16 + c3) * 16 + d) :: p.1, p.2)) <$>
                parseStrChars fuel cs3
            | _, _, _, _ => none
          | _ => none
        else none
    else if c.toNat < 32 then none
    else (fun p => (c :: p.1, p.2)) <$> parseStrChars fuel cs

/-- Numeric value of a decimal digit character. -/
def digitValue (c : Char) : Nat := c.toNat - 48

/-- Split off the maximal leading run of decimal digits, as digit values. -/
def takeDigits : List Char → List Nat × List Char
  | [] => ([], [])
  | c :: cs =>
    if c.isDigit then
      let p := takeDigits cs
      (digitValue c :: p.1, p.2)
    else ([], c :: cs)

/-- Recombine a big-endian digit list into a natural number. -/
def natOfDigitsBE (ds : List Nat) : Nat := ds.foldl (fun a d => a * 10 + d) 0

/-- Consume one expected character: `some` of the remainder when the input
starts with that character, else `none`. -/
def stripChar (c : Char) : List Char → Option (List Char)
  | d :: r => if d = c then some r else none
  | [] => none

mutual
/-- Modelled from the spec (§6): `JSON.parse` (fuelled: the fuel bounds the
nesting of recursive values; every claim instantiates it large enough).
Restricted to integer numerals, which is all `stringifyChars` emits. -/
def parseVal : Nat → List Char → Option (JSONValue × List Char)
  | 0, _ => none
  | fuel + 1, s =>
    match skipWs s with
    | [] => none
    | c :: cs =>
      if c = 'n' then
        match cs with
        | 'u' :: 'l' :: 'l' :: r => some (.null, r)
        | _ => none
      else if c = 't' then
        match cs with
        | 'r' :: 'u' :: 'e' :: r => some (.boolean true, r)
        | _ => none
      else if c = 'f' then
        match cs with
        | 'a' :: 'l' :: 's' :: 'e' :: r => some (.boolean false, r)
        | _ => none
      else if c = '"' then
        (fun p => (.str (String.mk p.1), p.2)) <$> parseStrChars (cs.length + 1) cs
      else if c = '-' then
        match cs with
        | d :: _ =>
          if d.isDigit then
            let p := takeDigits cs
            some (.num (-(natOfDigitsBE p.1 : Int)), p.2)
          else none
        | [] => none
      else if c.isDigit then
        let p := takeDigits (c :: cs)
        some (.num (natOfDigitsBE p.1 : Int), p.2)
      else if c = '[' then
        match stripChar ']' (skipWs cs) with
        | some r => some (.arr [], r)
        | none => (fun p => (.arr p.1, p.2)) <$> parseElems fuel cs
      else if c = '\x7b' then
        match stripChar '\x7d' (skipWs cs) with
        | some r => some (.obj [], r)
        | none => (fun p => (.obj p.1, p.2)) <$> parseMembers fuel cs
      else none

/-- Parse a nonempty comma-separated element list followed by `]`. -/
def parseElems : Nat → List Char → Option (List JSONValue × List Char)
  | 0, _ => none
  | fuel + 1, s =>
    match parseVal fuel s with
    | none => none
    | some (v, r) =>
      match skipWs r with
      | ',' :: r2 =>
        (fun p => (v :: p.1, p.2)) <$> parseElems fuel r2
      | ']' :: r2 => some ([v], r2)
      | _ => none

/-- Parse a nonempty comma-separated member list followed by the closing
brace. -/
def parseMembers : Nat → List Char → Option (List (String × JSONValue) × List Char)
  | 0, _ => none
  | fuel + 1, s =>
    match skipWs s with
    | '"' :: cs =>
      match parseStrChars (cs.length + 1) cs with
      | none => none
      | some (k, r) =>
        match skipWs r with
        | ':' :: r2 =>
          match parseVal fuel r2 with
          | none => none
          | some (v, r3) =>
            match skipWs r3 with
            | ',' :: r4 =>
              (fun p => ((String.mk k, v) :: p.1, p.2)) <$> parseMembers fuel r4
            | '\x7d' :: r4 => some ([(String.mk k, v)], r4)
            | _ => none
        | _ => none
    | _ => none
end

/-- Modelled from the spec (§6): `JSON.parse` of a whole document: parse one
value and require that only whitespace follows. -/
def parseJson (s : String) : Option JSONValue :=
  match parseVal (s.data.length + 1) s.data with
  | some (v, r) => if skipWs r = [] then some v else none
  | none => none

mutual
/-- Fuel measure for `parseVal`: an upper bound on the fuel a value needs. -/
def sizeJ : JSONValue → Nat
  | .null => 1
  | .boolean _ => 1
  | .num _ => 1
  | .str _ => 1
  | .arr xs => 1 + sizeL xs
  | .obj xs => 1 + sizeE xs

/-- Fuel measure for `parseElems`. -/
def sizeL : List JSONValue → Nat
  | [] => 0
  | x :: xs => 1 + sizeJ x + sizeL xs

/-- Fuel measure for `parseMembers`. -/
def sizeE : List (String × JSONValue) → Nat
  | [] => 0
  | (_, v) :: xs => 1 + sizeJ v + sizeE xs
end

/-- One entry of the module list Vite hands to the plugin
(`EnvironmentModuleNode`): the fields `invalidateModule` reads. `id` is
nullable in Vite, hence the `Option`. -/
structure ModuleNode where
  id : Option String
  url : String
  type : String
deriving DecidableEq

/-- The late-bound `DevEnvironment`: `invalidateModule` touches only its
optional `moduleGraph` and `hot` capabilities (through `?.` chains), so the
embedding records just their presence. -/
structure DevEnvironment where
  hasModuleGraph : Bool
  hasHot : Bool
deriving DecidableEq

/-- JavaScript truthiness of an optional string (`!this.resolvedVirtualId` at
`rebuild-manager.ts:134`): absent and empty strings are falsy. -/
def jsTruthyStr : Option String → Bool
  | none => false
  | some s => !(s == "")

/-- JavaScript truthiness of an array value (`if (mod)` at
`rebuild-manager.ts:141`): an array object is always truthy, whatever its
length. Kept as a definition so the translated branch structure mirrors the
source. -/
def jsTruthyArr {α : Type} (_ : List α) : Bool := true

/-- JS `String.prototype.includes`: `s` contains `sub` as a substring. -/
def strIncludes (s sub : String) : Bool :=
  s.data.tails.any (fun t => sub.data.isPrefixOf t)

/-- The observable side effects of one `invalidateModule` call, in program
order: the two `logger?.warn` sites, the `logger?.info` reload line, the
module-graph-wide invalidation, and the full-reload hot event. -/
inductive InvEff where
  | warnWiringMissing
  | warnModuleNotFound
  | infoReload
  | invalidateAll
  | hotSendFullReload
deriving DecidableEq

/-- Emit a log effect only when a logger is configured (`logger?.` calls). -/
def logIf (hasLogger : Bool) (e : InvEff) : List InvEff :=
  if hasLogger then [e] else []

/-- The fields of the `RebuildManager` instance and its options that the
pipeline reads: the late-bound wiring (`serverRef`, `resolvedVirtualId` from
`setServer`, `environment` from `setEnv`), the optional logger and the
optional `onRebuildComplete` callback. -/
structure RMState where
  serverRef : Bool
  resolvedVirtualId : Option String
  environment : Option DevEnvironment
  hasLogger : Bool
  hasCallback : Bool
deriving DecidableEq

/-- Does a module node pass the filter at `rebuild-manager.ts:139`
(`m.id?.includes(this.resolvedVirtualId ?? ' ')`)? A nullish `id` short-
circuits to a falsy value. -/
def moduleMatches (rvid : String) (m : ModuleNode) : Bool :=
  match m.id with
  | none => false
  | some i => strIncludes i rvid

/-- Shallow embedding of `RebuildManager.invalidateModule`
(`rebuild-manager.ts:132-154`). Returns the effects in program order and the
JS return value: `none` stands for the bare `return` (value `undefined`) taken
when the server wiring is missing, `some` for `return mod`. The `else` branch
of `if (mod)` is translated verbatim even though `jsTruthyArr` is constantly
`true` (a JS array is always truthy), so the dead no-match branch stays
visible. -/
def invalidateModule (st : RMState) (modules : List ModuleNode) :
    List InvEff × Option (List ModuleNode) :=
  if !st.serverRef || !jsTruthyStr st.resolvedVirtualId then
    (logIf st.hasLogger .warnWiringMissing, none)
  else
    let rvid := st.resolvedVirtualId.getD " "
    let mod := modules.filter (moduleMatches rvid)
    if jsTruthyArr mod then
      ((match st.environment with
        | some env =>
          (if env.hasModuleGraph then [InvEff.invalidateAll] else []) ++
            (if env.hasHot then [InvEff.hotSendFullReload] else [])
        | none => []) ++ logIf st.hasLogger .infoReload,
       some mod)
    else
      (logIf st.hasLogger .warnModuleNotFound, some mod)

/-- The timing statistics the aggregation collaborator returns
(`readAndGroup` contract, spec §6); only the counters the control flow reads
are modelled. -/
structure ReadStats where
  filesRead : Nat
  totalFiles : Nat
deriving DecidableEq

/-- The statistics the generation collaborator returns (`generateFiles`
contract, spec §6). -/
structure GenResult where
  filesWritten : Nat
  totalFiles : Nat
  filesList : List String
deriving DecidableEq

/-- The triple `rebuild` returns (`rebuild-manager.ts:72-76`). -/
structure RebuildResult where
  modules : List ModuleNode
  grouped : JSONValue
  jsonText : String

/-- The collaborators `rebuild` awaits, as oracles: the aggregation
collaborator's one outcome for this cycle, and the generation collaborator as
a function of the canonical document. A thrown JS error is an `Except.error`
carrying its message. -/
structure RebuildDeps where
  readAndGroup : Except String (JSONValue × ReadStats)
  generateFiles : JSONValue → Except String GenResult

/-- The externally visible events of one `rebuild` call, in program order:
the four pipeline phases (the invalidation phase carries its effects), the
log lines, and the completion-callback invocation with the exact cache object
it receives (`{grouped, modules, jsonText}`, where `modules` is the raw
`invalidateModule` return value, possibly `undefined`). -/
inductive REvent where
  | phaseReadAndGroup
  | logReadStats
  | phaseCanonicalize
  | phaseGenerateFiles
  | logGenerateStats
  | phaseInvalidateModule (effs : List InvEff)
  | callbackInvoked (modules : Option (List ModuleNode)) (grouped : JSONValue) (jsonText : String)
  | logRebuildComplete

/-- Is an event one of the four pipeline phases or the completion callback
(as opposed to a log line)? -/
def isPipelineEvent : REvent → Bool
  | .phaseReadAndGroup => true
  | .phaseCanonicalize => true
  | .phaseGenerateFiles => true
  | .phaseInvalidateModule _ => true
  | .callbackInvoked _ _ _ => true
  | _ => false

/-- Shallow embedding of `RebuildManager.rebuild`
(`rebuild-manager.ts:72-127`). An error from a collaborator aborts the
remaining pipeline and propagates (there is no `try`/`catch` in the source).
On success the four phases run in program order, then the completion callback
(when configured) receives `{grouped: groupedCache, modules: modulesResult,
jsonText: jsonTextCache}`, and the caller receives
`{modules: modulesResult ?? [], grouped: groupedCache, jsonText:
jsonTextCache}`. -/
def rebuild (deps : RebuildDeps) (st : RMState) (modules : List ModuleNode) :
    List REvent × Except String RebuildResult :=
  match deps.readAndGroup with
  | .error e => ([.phaseReadAndGroup], .error e)
  | .ok (grouped, stats) =>
    let readEvents := REvent.phaseReadAndGroup ::
      (if stats.filesRead > 0 || st.hasLogger then
        (if st.hasLogger then [REvent.logReadStats] else []) else [])
    let groupedCache := canonicalize grouped
    let jsonTextCache := stringify groupedCache
    match deps.generateFiles groupedCache with
    | .error e => (readEvents ++ [.phaseCanonicalize, .phaseGenerateFiles], .error e)
    | .ok _ =>
      let inv := invalidateModule st modules
      (readEvents ++ [.phaseCanonicalize, .phaseGenerateFiles] ++
        (if st.hasLogger then [REvent.logGenerateStats] else []) ++
        [.phaseInvalidateModule inv.1] ++
        (if st.hasCallback then [REvent.callbackInvoked inv.2 groupedCache jsonTextCache] else []) ++
        (if st.hasLogger then [REvent.logRebuildComplete] else []),
       .ok { modules := inv.2.getD [], grouped := groupedCache, jsonText := jsonTextCache })

/-- Debounce window, `DEBOUNCE_MS` (`rebuild-manager.ts:7`). -/
def DEBOUNCE_MS : Nat := 300

/-- Forced-rebuild threshold, `MAX_WAIT_MS` (`rebuild-manager.ts:8`). -/
def MAX_WAIT_MS : Nat := 2000

/-- The observable state of one caller's promise returned by
`debouncedRebuild`. The executor at `rebuild-manager.ts:60-66` only ever calls
`resolve` (on rebuild success inside that caller's own timer callback), so a
promise whose timer is cleared, or whose rebuild throws inside the timer
callback, stays `pending` forever; a fast-path caller's promise settles with
the rebuild outcome directly. -/
inductive PromiseStatus where
  | pending
  | resolvedWith (r : RebuildResult)
  | rejectedWith (e : String)

/-- State of the debounce machinery of one `RebuildManager` plus the
bookkeeping a scenario observes: `rebuildTimer` holds the caller index whose
timer is armed (clearing a timer drops that caller's only `resolve` handle;
a fired timer handle is observationally equivalent to none, since
`clearTimeout` on it is a no-op), `lastRebuildCall` is the pending-window
start (0 = none, as in the source's falsiness check), `promises` maps each
caller index to its promise status, and `execs` counts completed `rebuild`
executions. -/
structure DebounceMachine where
  rebuildTimer : Option Nat
  lastRebuildCall : Nat
  promises : List PromiseStatus
  execs : Nat

/-- How an (async) caller's promise settles when it directly awaits the
rebuild outcome `rb`. -/
def settleWith (rb : Except String RebuildResult) : PromiseStatus :=
  match rb with
  | .ok r => .resolvedWith r
  | .error e => .rejectedWith e

/-- Shallow embedding of one `debouncedRebuild` call
(`rebuild-manager.ts:46-67`) at clock value `now`, where `rb` is the outcome
`rebuild` produces in this scenario. The caller is assigned the next promise
index. JS computes `now - lastRebuildCall` on numbers; with a monotone clock
the difference is the truncated subtraction used here (and when the clock ran
backwards both give a value below `MAX_WAIT_MS`, selecting the same branch). -/
def debouncedRebuildStep (rb : Except String RebuildResult) (now : Nat)
    (m : DebounceMachine) : DebounceMachine :=
  let last1 := if m.lastRebuildCall = 0 then now else m.lastRebuildCall
  if MAX_WAIT_MS ≤ now - last1 then
    { rebuildTimer := none, lastRebuildCall := 0,
      promises := m.promises ++ [settleWith rb], execs := m.execs + 1 }
  else
    { rebuildTimer := some m.promises.length, lastRebuildCall := last1,
      promises := m.promises ++ [.pending], execs := m.execs }

/-- Shallow embedding of the armed timer firing (the `setTimeout` callback at
`rebuild-manager.ts:61-65`): reset the pending-window start, run `rebuild`,
and call `resolve` with its result — but only on success: when `rebuild`
throws, the `await` raises inside the async timer callback, `resolve` is never
invoked, and the caller's promise stays pending (the rejection is unhandled
and unobservable through the returned promise). -/
def timerFireStep (rb : Except String RebuildResult) (m : DebounceMachine) :
    DebounceMachine :=
  match m.rebuildTimer with
  | none => m
  | some cid =>
    { rebuildTimer := none, lastRebuildCall := 0,
      promises :=
        (match rb with
         | .ok r => m.promises.set cid (.resolvedWith r)
         | .error _ => m.promises),
      execs := m.execs + 1 }

/-- Run a sequence of `debouncedRebuild` calls at the given clock values. -/
def runCalls (rb : Except String RebuildResult) : List Nat → DebounceMachine → DebounceMachine
  | [], m => m
  | t :: ts, m => runCalls rb ts (debouncedRebuildStep rb t m)

/-- A freshly constructed `RebuildManager`: no timer, no pending window, no
callers yet. -/
def initMachine : DebounceMachine :=
  { rebuildTimer := none, lastRebuildCall := 0, promises := [], execs := 0 }

/-! ## Character and key-order lemmas -/

theorem char_toNat_inj {a b : Char} (h : a.toNat = b.toNat) : a = b := by
  rw [← Char.ofNat_toNat a, ← Char.ofNat_toNat b, h]

theorem lexLe_total : ∀ a b, lexLe a b = true ∨ lexLe b a = true
  | [], _ => Or.inl rfl
  | _ :: _, [] => Or.inr rfl
  | a :: as, b :: bs => by
    rcases Nat.lt_trichotomy a.toNat b.toNat with h | h | h
    · left; simp [lexLe, h]
    · rcases lexLe_total as bs with ih | ih
      · left; simp [lexLe, h, ih]
      · right; simp [lexLe, h.symm, ih]
    · right; simp [lexLe, h]

theorem lexLe_trans : ∀ a b c, lexLe a b = true → lexLe b c = true → lexLe a c = true
  | [], _, _, _, _ => rfl
  | x :: xs, [], _, h, _ => by simp [lexLe] at h
  | _ :: _, _ :: _, [], _, h => by simp [lexLe] at h
  | x :: xs, y :: ys, z :: zs, h1, h2 => by
    simp only [lexLe] at h1 h2 ⊢
    by_cases hxy : x.toNat < y.toNat
    · by_cases hyz : y.toNat < z.toNat
      · have hxz : x.toNat < z.toNat := Nat.lt_trans hxy hyz
        simp [hxz]
      · by_cases hzy : z.toNat < y.toNat
        · simp [hyz, hzy] at h2
        · have hxz : x.toNat < z.toNat := by omega
          simp [hxz]
    · by_cases hyx : y.toNat < x.toNat
      · simp [hxy, hyx] at h1
      · by_cases hyz : y.toNat < z.toNat
        · have hxz : x.toNat < z.toNat := by omega
          simp [hxz]
        · by_cases hzy : z.toNat < y.toNat
          · simp [hyz, hzy] at h2
          · have hnlt : ¬ x.toNat < z.toNat := by omega
            have hnlt' : ¬ z.toNat < x.toNat := by omega
            have hxs : lexLe xs ys = true := by simpa [hxy, hyx] using h1
            have hys : lexLe ys zs = true := by simpa [hyz, hzy] using h2
            simp [hnlt, hnlt', lexLe_trans xs ys zs hxs hys]

theorem lexLe_antisymm : ∀ a b, lexLe a b = true → lexLe b a = true → a = b
  | [], [], _, _ => rfl
  | [], _ :: _, _, h => by simp [lexLe] at h
  | _ :: _, [], h, _ => by simp [lexLe] at h
  | x :: xs, y :: ys, h1, h2 => by
    simp only [lexLe] at h1 h2
    rcases Nat.lt_trichotomy x.toNat y.toNat with hxy | hxy | hxy
    · simp [hxy, Nat.lt_asymm hxy] at h2
    · have hx : x = y := char_toNat_inj hxy
      subst hx
      simp only [lt_irrefl, if_false] at h1 h2
      rw [lexLe_antisymm xs ys h1 h2]
    · simp [hxy, Nat.lt_asymm hxy] at h1

theorem strLe_antisymm {a b : String} (h1 : strLe a b = true) (h2 : strLe b a = true) :
    a = b :=
  String.ext (lexLe_antisymm _ _ h1 h2)

theorem keyLe_total (a b : String × JSONValue) : keyLe a b = true ∨ keyLe b a = true :=
  lexLe_total _ _

theorem keyLe_trans {a b c : String × JSONValue} (h1 : keyLe a b = true)
    (h2 : keyLe b c = true) : keyLe a c = true :=
  lexLe_trans _ _ _ h1 h2

theorem keyLe_antisymm_keys {a b : String × JSONValue} (h1 : keyLe a b = true)
    (h2 : keyLe b a = true) : a.1 = b.1 :=
  strLe_antisymm h1 h2

/-! ## Insertion-sort lemmas -/

theorem insertEntry_perm (x : String × JSONValue) :
    ∀ l, List.Perm (insertEntry x l) (x :: l)
  | [] => List.Perm.refl _
  | y :: ys => by
    by_cases h : keyLe x y = true
    · simp [insertEntry, h]
    · simp only [insertEntry, h, if_false]
      exact ((insertEntry_perm x ys).cons y).trans (List.Perm.swap x y ys)

theorem sortEntries_perm : ∀ l, List.Perm (sortEntries l) l
  | [] => List.Perm.refl _
  | x :: xs =>
    ((insertEntry_perm x (sortEntries xs)).trans ((sortEntries_perm xs).cons x))

theorem pairwise_insertEntry {x : String × JSONValue} {l : List (String × JSONValue)}
    (h : List.Pairwise (fun a b => keyLe a b = true) l) :
    List.Pairwise (fun a b => keyLe a b = true) (insertEntry x l) := by
  induction l with
  | nil => simp [insertEntry]
  | cons y ys ih =>
    rcases List.pairwise_cons.mp h with ⟨hy, hys⟩
    by_cases hxy : keyLe x y = true
    · simp only [insertEntry, hxy, if_true]
      refine List.pairwise_cons.mpr ⟨?_, h⟩
      intro z hz
      rcases List.mem_cons.mp hz with hz' | hz'
      · subst hz'; exact hxy
      · exact keyLe_trans hxy (hy z hz')
    · have hyx : keyLe y x = true := (keyLe_total x y).resolve_left hxy
      simp only [insertEntry, hxy, if_false]
      refine List.pairwise_cons.mpr ⟨?_, ih hys⟩
      intro z hz
      have hz' : z = x ∨ z ∈ ys := by
        have := (insertEntry_perm x ys).mem_iff.mp hz
        simpa using this
      rcases hz' with hz' | hz'
      · subst hz'; exact hyx
      · exact hy z hz'

theorem sortEntries_pairwise : ∀ l, List.Pairwise (fun a b => keyLe a b = true) (sortEntries l)
  | [] => List.Pairwise.nil
  | x :: xs => pairwise_insertEntry (sortEntries_pairwise xs)

theorem insertEntry_cons_of_le {x y : String × JSONValue} {ys : List (String × JSONValue)}
    (h : keyLe x y = true) : insertEntry x (y :: ys) = x :: y :: ys := by
  simp [insertEntry, h]

theorem sortEntries_of_pairwise :
    ∀ {l}, List.Pairwise (fun a b => keyLe a b = true) l → sortEntries l = l
  | [], _ => rfl
  | [x], _ => rfl
  | x :: y :: ys, h => by
    rcases List.pairwise_cons.mp h with ⟨hx, hrest⟩
    have : sortEntries (y :: ys) = y :: ys := sortEntries_of_pairwise hrest
    simp only [sortEntries] at this ⊢
    rw [this, insertEntry_cons_of_le (hx y (by simp))]

theorem sortEntries_idem (l : List (String × JSONValue)) :
    sortEntries (sortEntries l) = sortEntries l :=
  sortEntries_of_pairwise (sortEntries_pairwise l)

/-! ## Canonicalizer lemmas -/

theorem canonicalizeList_eq_map : ∀ l, canonicalizeList l = l.map canonicalize
  | [] => rfl
  | x :: xs => by simp [canonicalizeList, canonicalizeList_eq_map xs]

theorem canonicalizeEntries_eq_map :
    ∀ l, canonicalizeEntries l = l.map (fun e => (e.1, canonicalize e.2))
  | [] => rfl
  | (k, v) :: xs => by simp [canonicalizeEntries, canonicalizeEntries_eq_map xs]

theorem canonicalizeList_eq_self :
    ∀ {l}, (∀ x ∈ l, canonicalize x = x) → canonicalizeList l = l
  | [], _ => rfl
  | x :: xs, h => by
    simp only [canonicalizeList]
    rw [h x (by simp), canonicalizeList_eq_self (fun y hy => h y (by simp [hy]))]

theorem canonicalizeEntries_eq_self :
    ∀ {l}, (∀ e ∈ l, canonicalize e.2 = e.2) → canonicalizeEntries l = l
  | [], _ => rfl
  | (k, v) :: xs, h => by
    simp only [canonicalizeEntries]
    rw [show canonicalize v = v from h (k, v) (by simp),
      canonicalizeEntries_eq_self (fun e he => h e (by simp [he]))]

mutual
theorem canonicalize_idem : ∀ d, canonicalize (canonicalize d) = canonicalize d
  | .null => rfl
  | .boolean _ => rfl
  | .num _ => rfl
  | .str _ => rfl
  | .arr xs => by
    simp only [canonicalize]
    rw [canonicalizeList_eq_self (canonicalizeList_canonical xs)]
  | .obj xs => by
    simp only [canonicalize]
    rw [canonicalizeEntries_eq_self
        (fun e he => canonicalizeEntries_canonical xs e
          ((sortEntries_perm (canonicalizeEntries xs)).mem_iff.mp he)),
      sortEntries_idem]

theorem canonicalizeList_canonical :
    ∀ l, ∀ x ∈ canonicalizeList l, canonicalize x = x
  | [], x, hx => by simp [canonicalizeList] at hx
  | y :: ys, x, hx => by
    rcases List.mem_cons.mp hx with h | h
    · subst h; exact canonicalize_idem y
    · exact canonicalizeList_canonical ys x h

theorem canonicalizeEntries_canonical :
    ∀ l, ∀ e ∈ canonicalizeEntries l, canonicalize e.2 = e.2
  | [], e, he => by simp [canonicalizeEntries] at he
  | (k, v) :: ys, e, he => by
    rcases List.mem_cons.mp he with h | h
    · subst h; exact canonicalize_idem v
    · exact canonicalizeEntries_canonical ys e h
end

/-! ## Nodup-keys and unordered-equality lemmas -/

theorem nodupKeysList_iff : ∀ l, NodupKeysList l ↔ ∀ x ∈ l, NodupKeys x
  | [] => by simp [NodupKeysList]
  | x :: xs => by
    simp only [NodupKeysList, nodupKeysList_iff xs]
    constructor
    · rintro ⟨h1, h2⟩ y hy
      rcases List.mem_cons.mp hy with h | h
      · subst h; exact h1
      · exact h2 y h
    · intro h
      exact ⟨h x (by simp), fun y hy => h y (by simp [hy])⟩

theorem nodupKeysEntries_iff : ∀ l, NodupKeysEntries l ↔ ∀ e ∈ l, NodupKeys e.2
  | [] => by simp [NodupKeysEntries]
  | (k, v) :: xs => by
    simp only [NodupKeysEntries, nodupKeysEntries_iff xs]
    constructor
    · rintro ⟨h1, h2⟩ e he
      rcases List.mem_cons.mp he with h | h
      · subst h; exact h1
      · exact h2 e h
    · intro h
      exact ⟨h (k, v) (by simp), fun e he => h e (by simp [he])⟩

theorem unorderedEqEntries_keys :
    ∀ {l1 l2}, UnorderedEqEntries l1 l2 → l1.map Prod.fst = l2.map Prod.fst
  | _, _, .nil => rfl
  | _, _, .cons _ h => by simpa using unorderedEqEntries_keys h

theorem nodupKeysEntries_of_perm {zs ys : List (String × JSONValue)}
    (hp : List.Perm zs ys) (h : NodupKeysEntries ys) : NodupKeysEntries zs := by
  rw [nodupKeysEntries_iff] at h ⊢
  intro e he
  exact h e (hp.mem_iff.mp he)

mutual
theorem unorderedEq_canonicalize :
    ∀ {d1 d2}, UnorderedEq d1 d2 → NodupKeys d1 → NodupKeys d2 →
      canonicalize d1 = canonicalize d2
  | _, _, .null, _, _ => rfl
  | _, _, .boolean _, _, _ => rfl
  | _, _, .num _, _, _ => rfl
  | _, _, .str _, _, _ => rfl
  | _, _, .arr h, nd1, nd2 => by
    simp only [canonicalize]
    rw [unorderedEqList_canonicalize h nd1 nd2]
  | _, _, @UnorderedEq.obj xs zs ys hE hp, nd1, nd2 => by
    obtain ⟨hnd1, hv1⟩ := nd1
    obtain ⟨hnd2, hv2⟩ := nd2
    have hv2' : NodupKeysEntries zs := nodupKeysEntries_of_perm hp hv2
    have hEq : canonicalizeEntries xs = canonicalizeEntries zs :=
      unorderedEqEntries_canonicalize hE hv1 hv2'
    have hpm : List.Perm (canonicalizeEntries zs) (canonicalizeEntries ys) := by
      rw [canonicalizeEntries_eq_map, canonicalizeEntries_eq_map]
      exact hp.map _
    have hperm : List.Perm (sortEntries (canonicalizeEntries xs))
        (sortEntries (canonicalizeEntries ys)) :=
      ((sortEntries_perm _).trans (hEq ▸ hpm)).trans (sortEntries_perm _).symm
    have hsym : ∀ {a b : String × JSONValue}, a.1 ≠ b.1 → b.1 ≠ a.1 :=
      fun h => Ne.symm h
    have hne1 : List.Pairwise (fun a b => a.1 ≠ b.1)
        (sortEntries (canonicalizeEntries xs)) := by
      have base : List.Pairwise (fun a b => a.1 ≠ b.1) (canonicalizeEntries xs) := by
        rw [canonicalizeEntries_eq_map]
        exact (List.pairwise_map).mpr hnd1
      exact (List.Perm.pairwise_iff hsym (sortEntries_perm _)).mpr base
    have hne2 : List.Pairwise (fun a b => a.1 ≠ b.1)
        (sortEntries (canonicalizeEntries ys)) := by
      have base : List.Pairwise (fun a b => a.1 ≠ b.1) (canonicalizeEntries ys) := by
        rw [canonicalizeEntries_eq_map]
        exact (List.pairwise_map).mpr hnd2
      exact (List.Perm.pairwise_iff hsym (sortEntries_perm _)).mpr base
    have hstrict1 := (sortEntries_pairwise (canonicalizeEntries xs)).and hne1
    have hstrict2 := (sortEntries_pairwise (canonicalizeEntries ys)).and hne2
    haveI : IsAntisymm (String × JSONValue)
        (fun a b => keyLe a b = true ∧ a.1 ≠ b.1) :=
      ⟨fun a b h1 h2 => absurd (keyLe_antisymm_keys h1.1 h2.1) h1.2⟩
    have hfinal := List.eq_of_perm_of_sorted hperm hstrict1 hstrict2
    simp only [canonicalize]
    rw [hfinal]

theorem unorderedEqList_canonicalize :
    ∀ {l1 l2}, UnorderedEqList l1 l2 → NodupKeysList l1 → NodupKeysList l2 →
      canonicalizeList l1 = canonicalizeList l2
  | _, _, .nil, _, _ => rfl
  | _, _, .cons h hs, nd1, nd2 => by
    simp only [canonicalizeList]
    rw [unorderedEq_canonicalize h nd1.1 nd2.1,
      unorderedEqList_canonicalize hs nd1.2 nd2.2]

theorem unorderedEqEntries_canonicalize :
    ∀ {l1 l2}, UnorderedEqEntries l1 l2 → NodupKeysEntries l1 → NodupKeysEntries l2 →
      canonicalizeEntries l1 = canonicalizeEntries l2
  | _, _, .nil, _, _ => rfl
  | _, _, .cons h hs, nd1, nd2 => by
    simp only [canonicalizeEntries]
    rw [unorderedEq_canonicalize h nd1.1 nd2.1,
      unorderedEqEntries_canonicalize hs nd1.2 nd2.2]
end

/-- Claim C9: `canonicalize` is idempotent on every acyclic JSON-like value,
and order-independent: two documents that are equal as unordered trees (with
the JS-object guarantee of duplicate-free keys) canonicalize to values with
identical serializations. -/
theorem claimC9 :
    (∀ d, canonicalize (canonicalize d) = canonicalize d) ∧
    (∀ d1 d2, UnorderedEq d1 d2 → NodupKeys d1 → NodupKeys d2 →
      stringify (canonicalize d1) = stringify (canonicalize d2)) :=
  ⟨canonicalize_idem, fun _ _ h n1 n2 => by rw [unorderedEq_canonicalize h n1 n2]⟩

/-- Witness for C9 at a concrete pair of documents that differ only in key
order. -/
theorem claimC9_witness :
    canonicalize (canonicalize (JSONValue.obj [("b", .str "x"), ("a", .null)])) =
      canonicalize (JSONValue.obj [("b", .str "x"), ("a", .null)]) ∧
    stringify (canonicalize (JSONValue.obj [("b", .str "x"), ("a", .null)])) =
      stringify (canonicalize (JSONValue.obj [("a", .null), ("b", .str "x")])) := by
  constructor
  · exact claimC9.1 _
  · refine claimC9.2 _ _
      (UnorderedEq.obj
        (UnorderedEqEntries.cons (UnorderedEq.str "x")
          (UnorderedEqEntries.cons UnorderedEq.null UnorderedEqEntries.nil))
        (List.Perm.swap ("a", JSONValue.null) ("b", JSONValue.str "x") []))
      ⟨?_, trivial, trivial, trivial⟩ ⟨?_, trivial, trivial, trivial⟩
    · refine List.pairwise_cons.mpr ⟨?_, List.pairwise_cons.mpr ⟨?_, List.Pairwise.nil⟩⟩
      · intro z hz
        rcases List.mem_cons.mp hz with h | h
        · subst h; decide
        · simp at h
      · intro z hz
        simp at hz
    · refine List.pairwise_cons.mpr ⟨?_, List.pairwise_cons.mpr ⟨?_, List.Pairwise.nil⟩⟩
      · intro z hz
        rcases List.mem_cons.mp hz with h | h
        · subst h; decide
        · simp at h
      · intro z hz
        simp at hz

/-! ## String-escape round-trip lemmas -/

theorem charOfNat_toNat {n : Nat} (h : n < 55296) : (Char.ofNat n).toNat = n := by
  unfold Char.ofNat
  split
  · rfl
  · exact absurd (Or.inl h) (by assumption)

theorem char_ofNat_of_toNat_eq {c : Char} {n : Nat} (h : c.toNat = n) :
    Char.ofNat n = c := by
  rw [← h, Char.ofNat_toNat]

theorem hexVal_hexDigitChar : ∀ d : Fin 16, hexVal (hexDigitChar d.1) = some d.1 := by
  decide

theorem hexVal_hexDigitChar_of_lt {d : Nat} (h : d < 16) :
    hexVal (hexDigitChar d) = some d :=
  hexVal_hexDigitChar ⟨d, h⟩

theorem psc_step_other {c : Char} (h1 : ¬ c = '"') (h2 : ¬ c = '\\')
    (h3 : ¬ c.toNat < 32) (f : Nat) (x : List Char) :
    parseStrChars (f + 1) (c :: x) = (fun p => (c :: p.1, p.2)) <$> parseStrChars f x := by
  simp only [parseStrChars]
  rw [if_neg h1, if_neg h2, if_neg h3]

theorem psc_step_u {h3 h4 : Char} {a b : Nat} (ha : hexVal h3 = some a)
    (hb : hexVal h4 = some b) (f : Nat) (x : List Char) :
    parseStrChars (f + 1) ('\\' :: 'u' :: '0' :: '0' :: h3 :: h4 :: x) =
      (fun p => (Char.ofNat (16 * a + b) :: p.1, p.2)) <$> parseStrChars f x := by
  have h0 : hexVal '0' = some 0 := rfl
  simp [parseStrChars, ha, hb, h0]
  ring_nf

theorem parseStrChars_escape :
    ∀ (l : List Char) (fuel : Nat) (rest : List Char), l.length < fuel →
      parseStrChars fuel (escChars l ++ '"' :: rest) = some (l, rest)
  | _, 0, _, h => absurd h (Nat.not_lt_zero _)
  | [], fuel + 1, rest, _ => by
    simp only [escChars, List.nil_append]
    rfl
  | c :: cs, fuel + 1, rest, h => by
    have hlen : cs.length < fuel := by
      simp only [List.length_cons] at h
      omega
    have ih := parseStrChars_escape cs fuel rest hlen
    have hmap : ∀ x : Char, (fun p => (x :: p.1, p.2)) <$>
        parseStrChars fuel (escChars cs ++ '"' :: rest) = some (x :: cs, rest) := by
      intro x
      rw [ih]
      rfl
    by_cases h1 : c = '"'
    · subst h1
      rw [show escChars ('"' :: cs) ++ '"' :: rest =
          '\\' :: '"' :: (escChars cs ++ '"' :: rest) by simp [escChars, escChar]]
      rw [show parseStrChars (fuel + 1) ('\\' :: '"' :: (escChars cs ++ '"' :: rest)) =
          (fun p => ('"' :: p.1, p.2)) <$> parseStrChars fuel (escChars cs ++ '"' :: rest)
        from rfl]
      exact hmap '"'
    by_cases h2 : c = '\\'
    · subst h2
      rw [show escChars ('\\' :: cs) ++ '"' :: rest =
          '\\' :: '\\' :: (escChars cs ++ '"' :: rest) by simp [escChars, escChar]]
      rw [show parseStrChars (fuel + 1) ('\\' :: '\\' :: (escChars cs ++ '"' :: rest)) =
          (fun p => ('\\' :: p.1, p.2)) <$> parseStrChars fuel (escChars cs ++ '"' :: rest)
        from rfl]
      exact hmap '\\'
    by_cases h3 : c.toNat = 8
    · rw [show escChars (c :: cs) ++ '"' :: rest =
          '\\' :: 'b' :: (escChars cs ++ '"' :: rest) by simp [escChars, escChar, h1, h2, h3]]
      rw [show parseStrChars (fuel + 1) ('\\' :: 'b' :: (escChars cs ++ '"' :: rest)) =
          (fun p => (Char.ofNat 8 :: p.1, p.2)) <$> parseStrChars fuel (escChars cs ++ '"' :: rest)
        from rfl]
      rw [char_ofNat_of_toNat_eq h3]
      exact hmap c
    by_cases h4 : c.toNat = 9
    · rw [show escChars (c :: cs) ++ '"' :: rest =
          '\\' :: 't' :: (escChars cs ++ '"' :: rest) by
        simp [escChars, escChar, h1, h2, h3, h4]]
      rw [show parseStrChars (fuel + 1) ('\\' :: 't' :: (escChars cs ++ '"' :: rest)) =
          (fun p => ('\t' :: p.1, p.2)) <$> parseStrChars fuel (escChars cs ++ '"' :: rest)
        from rfl]
      rw [show ('\t' : Char) = c from char_toNat_inj (by rw [h4]; decide)]
      exact hmap c
    by_cases h5 : c.toNat = 10
    · rw [show escChars (c :: cs) ++ '"' :: rest =
          '\\' :: 'n' :: (escChars cs ++ '"' :: rest) by
        simp [escChars, escChar, h1, h2, h3, h4, h5]]
      rw [show parseStrChars (fuel + 1) ('\\' :: 'n' :: (escChars cs ++ '"' :: rest)) =
          (fun p => ('\n' :: p.1, p.2)) <$> parseStrChars fuel (escChars cs ++ '"' :: rest)
        from rfl]
      rw [show ('\n' : Char) = c from char_toNat_inj (by rw [h5]; decide)]
      exact hmap c
    by_cases h6 : c.toNat = 12
    · rw [show escChars (c :: cs) ++ '"' :: rest =
          '\\' :: 'f' :: (escChars cs ++ '"' :: rest) by
        simp [escChars, escChar, h1, h2, h3, h4, h5, h6]]
      rw [show parseStrChars (fuel + 1) ('\\' :: 'f' :: (escChars cs ++ '"' :: rest)) =
          (fun p => (Char.ofNat 12 :: p.1, p.2)) <$> parseStrChars fuel (escChars cs ++ '"' :: rest)
        from rfl]
      rw [char_ofNat_of_toNat_eq h6]
      exact hmap c
    by_cases h7 : c.toNat = 13
    · rw [show escChars (c :: cs) ++ '"' :: rest =
          '\\' :: 'r' :: (escChars cs ++ '"' :: rest) by
        simp [escChars, escChar, h1, h2, h3, h4, h5, h6, h7]]
      rw [show parseStrChars (fuel + 1) ('\\' :: 'r' :: (escChars cs ++ '"' :: rest)) =
          (fun p => ('\r' :: p.1, p.2)) <$> parseStrChars fuel (escChars cs ++ '"' :: rest)
        from rfl]
      rw [show ('\r' : Char) = c from char_toNat_inj (by rw [h7]; decide)]
      exact hmap c
    by_cases h8 : c.toNat < 32
    · rw [show escChars (c :: cs) ++ '"' :: rest =
          '\\' :: 'u' :: '0' :: '0' :: hexDigitChar (c.toNat / 16) ::
            hexDigitChar (c.toNat % 16) :: (escChars cs ++ '"' :: rest) by
        simp [escChars, escChar, uEscape, h1, h2, h3, h4, h5, h6, h7, h8]]
      rw [psc_step_u (hexVal_hexDigitChar_of_lt (by omega))
        (hexVal_hexDigitChar_of_lt (Nat.mod_lt _ (by omega)))]
      rw [show 16 * (c.toNat / 16) + c.toNat % 16 = c.toNat from Nat.div_add_mod _ _,
        Char.ofNat_toNat]
      exact hmap c
    · rw [show escChars (c :: cs) ++ '"' :: rest = c :: (escChars cs ++ '"' :: rest) by
        simp [escChars, escChar, h1, h2, h3, h4, h5, h6, h7, h8]]
      rw [psc_step_other h1 h2 h8]
      exact hmap c

/-! ## Digit and number round-trip lemmas -/

theorem digitChar_isDigit : ∀ d : Fin 10, (digitChar d.1).isDigit = true := by
  decide

theorem digitChar_isDigit_of_lt {d : Nat} (h : d < 10) : (digitChar d).isDigit = true :=
  digitChar_isDigit ⟨d, h⟩

theorem digitValue_digitChar : ∀ d : Fin 10, digitValue (digitChar d.1) = d.1 := by
  decide

theorem digitValue_digitChar_of_lt {d : Nat} (h : d < 10) : digitValue (digitChar d) = d :=
  digitValue_digitChar ⟨d, h⟩

theorem digitChar_props : ∀ d : Fin 10,
    isWsChar (digitChar d.1) = false ∧ digitChar d.1 ≠ ']' ∧ digitChar d.1 ≠ '\x7d' ∧
    digitChar d.1 ≠ 'n' ∧ digitChar d.1 ≠ 't' ∧ digitChar d.1 ≠ 'f' ∧
    digitChar d.1 ≠ '"' ∧ digitChar d.1 ≠ '-' ∧ digitChar d.1 ≠ '[' ∧
    digitChar d.1 ≠ '\x7b' := by
  decide

theorem takeDigits_of_head (rest : List Char)
    (hnd : ∀ c, rest.head? = some c → c.isDigit = false) :
    takeDigits rest = ([], rest) := by
  cases rest with
  | nil => rfl
  | cons c cs => simp [takeDigits, hnd c rfl]

theorem takeDigits_map :
    ∀ (ds : List Nat) (rest : List Char), (∀ d ∈ ds, d < 10) →
      (∀ c, rest.head? = some c → c.isDigit = false) →
      takeDigits (ds.map digitChar ++ rest) = (ds, rest)
  | [], rest, _, hnd => by simpa using takeDigits_of_head rest hnd
  | d :: ds, rest, hlt, hnd => by
    have hd : d < 10 := hlt d (by simp)
    simp only [List.map_cons, List.cons_append, takeDigits, digitChar_isDigit_of_lt hd,
      if_true, List.append_eq]
    rw [takeDigits_map ds rest (fun x hx => hlt x (by simp [hx])) hnd]
    simp [digitValue_digitChar_of_lt hd]

theorem foldl_digits_reverse :
    ∀ (L : List Nat) (acc : Nat),
      List.foldl (fun a d => a * 10 + d) acc L.reverse =
        acc * 10 ^ L.length + Nat.ofDigits 10 L
  | [], acc => by simp [Nat.ofDigits]
  | d :: L, acc => by
    simp only [List.reverse_cons, List.foldl_append, List.foldl_cons, List.foldl_nil,
      List.length_cons, Nat.ofDigits_cons]
    rw [foldl_digits_reverse L acc]
    ring

theorem natOfDigitsBE_decDigits (m : Nat) : natOfDigitsBE (decDigits m) = m := by
  unfold natOfDigitsBE decDigits
  by_cases h : m = 0
  · subst h; rfl
  · rw [if_neg h, foldl_digits_reverse]
    simp [Nat.ofDigits_digits]

theorem decDigits_lt (m : Nat) : ∀ d ∈ decDigits m, d < 10 := by
  intro d hd
  unfold decDigits at hd
  by_cases h : m = 0
  · rw [if_pos h] at hd
    simp at hd
    omega
  · rw [if_neg h] at hd
    exact Nat.digits_lt_base (by norm_num) (List.mem_reverse.mp hd)

theorem decDigits_ne_nil (m : Nat) : decDigits m ≠ [] := by
  unfold decDigits
  by_cases h : m = 0
  · simp [h]
  · rw [if_neg h]
    intro hc
    rw [List.reverse_eq_nil_iff] at hc
    exact h (Nat.digits_eq_nil_iff_eq_zero.mp hc)

theorem escChars_length_le : ∀ l : List Char, l.length ≤ (escChars l).length
  | [] => le_refl _
  | c :: cs => by
    have h1 : 1 ≤ (escChar c).length := by
      unfold escChar
      repeat' split
      all_goals simp [uEscape]
    have h2 := escChars_length_le cs
    simp only [escChars, List.length_append, List.length_cons]
    omega

theorem string_mk_data (s : String) : String.mk s.data = s := by
  cases s
  rfl

theorem skipWs_cons_of_not_ws {c : Char} (h : isWsChar c = false) (l : List Char) :
    skipWs (c :: l) = c :: l := by
  simp [skipWs, h]

theorem stripChar_of_ne {c d : Char} (h : d ≠ c) (l : List Char) :
    stripChar c (d :: l) = none := by
  simp [stripChar, h]

theorem head_not_digit_of_cons {c0 : Char} (h : c0.isDigit = false) (l : List Char) :
    ∀ c, (c0 :: l).head? = some c → c.isDigit = false := by
  intro c hc
  simp only [List.head?_cons, Option.some.injEq] at hc
  subst hc
  exact h

theorem natChars_cons (m : Nat) :
    ∃ d ds, decDigits m = d :: ds ∧ d < 10 ∧ (∀ x ∈ ds, x < 10) ∧
      natChars m = digitChar d :: ds.map digitChar := by
  rcases hd : decDigits m with _ | ⟨d, ds⟩
  · exact absurd hd (decDigits_ne_nil m)
  · refine ⟨d, ds, rfl, ?_, ?_, ?_⟩
    · exact decDigits_lt m d (by simp [hd])
    · intro x hx
      exact decDigits_lt m x (by simp [hd, hx])
    · simp [natChars, hd]

theorem stringifyChars_head :
    ∀ d : JSONValue, ∃ c t, stringifyChars d = c :: t ∧ isWsChar c = false ∧
      c ≠ ']' ∧ c ≠ '\x7d' := by
  intro d
  cases d with
  | null => exact ⟨'n', _, rfl, by decide⟩
  | boolean b =>
    cases b
    · exact ⟨'f', _, rfl, by decide⟩
    · exact ⟨'t', _, rfl, by decide⟩
  | num n =>
    by_cases h : n < 0
    · exact ⟨'-', natChars n.natAbs, by simp [stringifyChars, intChars, h], by decide⟩
    · rcases natChars_cons n.natAbs with ⟨d0, ds, _, hd0, _, hnc⟩
      rcases digitChar_props ⟨d0, hd0⟩ with ⟨p1, p2, p3, _⟩
      refine ⟨digitChar d0, ds.map digitChar, ?_, p1, p2, p3⟩
      simp [stringifyChars, intChars, h, hnc]
  | str s => exact ⟨'"', _, rfl, by decide⟩
  | arr xs =>
    cases xs
    · exact ⟨'[', _, rfl, by decide⟩
    · exact ⟨'[', _, rfl, by decide⟩
  | obj xs =>
    cases xs
    · exact ⟨'\x7b', _, rfl, by decide⟩
    · exact ⟨'\x7b', _, rfl, by decide⟩

/-! ## Parse/stringify round trip -/

theorem sizeJ_pos : ∀ d, 1 ≤ sizeJ d := by
  intro d
  cases d <;> simp [sizeJ]

theorem parseVal_step_neg {c : Char} (h6 : c.isDigit = true) (f : Nat) (x : List Char) :
    parseVal (f + 1) ('-' :: c :: x) =
      some (.num (-(natOfDigitsBE (takeDigits (c :: x)).1 : Int)),
        (takeDigits (c :: x)).2) := by
  simp only [parseVal]
  rw [skipWs_cons_of_not_ws (by decide)]
  simp [h6]

theorem parseVal_step_digit {c : Char} (h1 : ¬ c = 'n') (h2 : ¬ c = 't') (h3 : ¬ c = 'f')
    (h4 : ¬ c = '"') (h5 : ¬ c = '-') (h6 : c.isDigit = true) (hws : isWsChar c = false)
    (f : Nat) (x : List Char) :
    parseVal (f + 1) (c :: x) =
      some (.num (natOfDigitsBE (takeDigits (c :: x)).1), (takeDigits (c :: x)).2) := by
  simp only [parseVal]
  rw [skipWs_cons_of_not_ws hws]
  simp only [h1, h2, h3, h4, h5, h6, if_neg, if_pos, if_false, if_true, ite_false, ite_true]

mutual
theorem parseVal_stringify :
    ∀ (d : JSONValue) (fuel : Nat) (rest : List Char), sizeJ d ≤ fuel →
      (∀ c, rest.head? = some c → c.isDigit = false) →
      parseVal fuel (stringifyChars d ++ rest) = some (d, rest)
  | d, 0, _, hsz, _ => by
    have := sizeJ_pos d
    omega
  | .null, _ + 1, _, _, _ => rfl
  | .boolean true, _ + 1, _, _, _ => rfl
  | .boolean false, _ + 1, _, _, _ => rfl
  | .str s, fuel + 1, rest, _, _ => by
    have hre : stringifyChars (.str s) ++ rest =
        '"' :: (escChars s.data ++ '"' :: rest) := by
      simp [stringifyChars, strChars]
    rw [hre]
    rw [show parseVal (fuel + 1) ('"' :: (escChars s.data ++ '"' :: rest)) =
        (fun p => (JSONValue.str (String.mk p.1), p.2)) <$>
          parseStrChars ((escChars s.data ++ '"' :: rest).length + 1)
            (escChars s.data ++ '"' :: rest) from rfl]
    rw [parseStrChars_escape s.data ((escChars s.data ++ '"' :: rest).length + 1) rest (by
      have := escChars_length_le s.data
      simp only [List.length_append, List.length_cons]
      omega)]
    simp [string_mk_data]
  | .num n, fuel + 1, rest, _, hnd => by
    rcases natChars_cons n.natAbs with ⟨d0, ds, hdec, hd0, hds, hnc⟩
    rcases digitChar_props ⟨d0, hd0⟩ with ⟨pws, _, _, pn, pt, pf, pq, pm, _, _⟩
    have hdig : (digitChar d0).isDigit = true := digitChar_isDigit_of_lt hd0
    have htd : takeDigits (digitChar d0 :: (ds.map digitChar ++ rest)) =
        (d0 :: ds, rest) := by
      have hh := takeDigits_map (d0 :: ds) rest
        (by
          intro x hx
          rcases List.mem_cons.mp hx with h | h
          · subst h; exact hd0
          · exact hds x h) hnd
      simpa using hh
    have h1 : natOfDigitsBE (d0 :: ds) = n.natAbs := by
      rw [← hdec]
      exact natOfDigitsBE_decDigits _
    by_cases h : n < 0
    · rw [show stringifyChars (.num n) ++ rest =
          '-' :: digitChar d0 :: (ds.map digitChar ++ rest) by
        simp [stringifyChars, intChars, h, hnc]]
      rw [parseVal_step_neg hdig, htd]
      have h2 : -((n.natAbs : Int)) = n := by omega
      simp only [h1, h2]
    · rw [show stringifyChars (.num n) ++ rest =
          digitChar d0 :: (ds.map digitChar ++ rest) by
        simp [stringifyChars, intChars, h, hnc]]
      rw [parseVal_step_digit pn pt pf pq pm hdig pws, htd]
      have h2 : ((n.natAbs : Int)) = n := by omega
      simp only [h1, h2]
  | .arr [], _ + 1, _, _, _ => rfl
  | .arr (x :: xs), fuel + 1, rest, hsz, _ => by
    rcases stringifyChars_head x with ⟨c, t, hx, hws, hnr, _⟩
    have hre : stringifyChars (.arr (x :: xs)) ++ rest =
        '[' :: (stringifyArr (x :: xs) ++ ']' :: rest) := by
      simp [stringifyChars]
    rw [hre]
    rw [show parseVal (fuel + 1) ('[' :: (stringifyArr (x :: xs) ++ ']' :: rest)) =
        (match stripChar ']' (skipWs (stringifyArr (x :: xs) ++ ']' :: rest)) with
         | some r => some (.arr [], r)
         | none => (fun p => (JSONValue.arr p.1, p.2)) <$>
             parseElems fuel (stringifyArr (x :: xs) ++ ']' :: rest)) from rfl]
    have hhead : ∃ t2, stringifyArr (x :: xs) ++ ']' :: rest = c :: t2 := by
      cases xs with
      | nil => exact ⟨t ++ ']' :: rest, by simp [stringifyArr, hx]⟩
      | cons y ys =>
        exact ⟨t ++ ',' :: (stringifyArr (y :: ys) ++ ']' :: rest), by
          simp [stringifyArr, hx]⟩
    rcases hhead with ⟨t2, ht2⟩
    rw [ht2, skipWs_cons_of_not_ws hws, stripChar_of_ne hnr]
    show (fun p => (JSONValue.arr p.1, p.2)) <$> parseElems fuel (c :: t2) = _
    rw [← ht2]
    rw [parseElems_stringify (x :: xs) fuel rest (by simp) (by
      simp only [sizeJ] at hsz
      omega)]
    rfl
  | .obj [], _ + 1, _, _, _ => rfl
  | .obj ((k, v) :: es), fuel + 1, rest, hsz, _ => by
    have hre : stringifyChars (.obj ((k, v) :: es)) ++ rest =
        '\x7b' :: (stringifyObj ((k, v) :: es) ++ '\x7d' :: rest) := by
      simp [stringifyChars]
    rw [hre]
    rw [show parseVal (fuel + 1) ('\x7b' :: (stringifyObj ((k, v) :: es) ++ '\x7d' :: rest)) =
        (match stripChar '\x7d' (skipWs (stringifyObj ((k, v) :: es) ++ '\x7d' :: rest)) with
         | some r => some (.obj [], r)
         | none => (fun p => (JSONValue.obj p.1, p.2)) <$>
             parseMembers fuel (stringifyObj ((k, v) :: es) ++ '\x7d' :: rest)) from rfl]
    have hhead : ∃ t2, stringifyObj ((k, v) :: es) ++ '\x7d' :: rest = '"' :: t2 := by
      cases es with
      | nil =>
        exact ⟨escChars k.data ++ '"' :: (':' :: (stringifyChars v ++ '\x7d' :: rest)), by
          simp [stringifyObj, strChars]⟩
      | cons e2 es2 =>
        exact ⟨escChars k.data ++ '"' ::
          (':' :: (stringifyChars v ++ ',' :: (stringifyObj (e2 :: es2) ++ '\x7d' :: rest))), by
          simp [stringifyObj, strChars]⟩
    rcases hhead with ⟨t2, ht2⟩
    rw [ht2, skipWs_cons_of_not_ws (by decide), stripChar_of_ne (by decide)]
    show (fun p => (JSONValue.obj p.1, p.2)) <$> parseMembers fuel ('"' :: t2) = _
    rw [← ht2]
    rw [parseMembers_stringify ((k, v) :: es) fuel rest (by simp) (by
      simp only [sizeJ] at hsz
      omega)]
    rfl

theorem parseElems_stringify :
    ∀ (xs : List JSONValue) (fuel : Nat) (rest : List Char), xs ≠ [] → sizeL xs ≤ fuel →
      parseElems fuel (stringifyArr xs ++ ']' :: rest) = some (xs, rest)
  | [], _, _, hne, _ => absurd rfl hne
  | x :: xs, 0, _, _, hsz => by
    simp only [sizeL] at hsz
    omega
  | [x], fuel + 1, rest, _, hsz => by
    have hszx : sizeJ x ≤ fuel := by
      simp only [sizeL] at hsz
      omega
    simp only [parseElems]
    rw [show stringifyArr [x] = stringifyChars x from rfl]
    rw [parseVal_stringify x fuel (']' :: rest) hszx
      (head_not_digit_of_cons (by decide) rest)]
    rfl
  | x :: y :: ys, fuel + 1, rest, _, hsz => by
    have hszx : sizeJ x ≤ fuel := by
      simp only [sizeL] at hsz
      omega
    have hszr : sizeL (y :: ys) ≤ fuel := by
      simp only [sizeL] at hsz ⊢
      omega
    have hre : stringifyArr (x :: y :: ys) ++ ']' :: rest =
        stringifyChars x ++ ',' :: (stringifyArr (y :: ys) ++ ']' :: rest) := by
      simp [stringifyArr]
    simp only [parseElems]
    rw [hre]
    rw [parseVal_stringify x fuel (',' :: (stringifyArr (y :: ys) ++ ']' :: rest)) hszx
      (head_not_digit_of_cons (by decide) _)]
    show (fun p => (x :: p.1, p.2)) <$>
        parseElems fuel (stringifyArr (y :: ys) ++ ']' :: rest) = _
    rw [parseElems_stringify (y :: ys) fuel rest (by simp) hszr]
    rfl

theorem parseMembers_stringify :
    ∀ (es : List (String × JSONValue)) (fuel : Nat) (rest : List Char), es ≠ [] →
      sizeE es ≤ fuel →
      parseMembers fuel (stringifyObj es ++ '\x7d' :: rest) = some (es, rest)
  | [], _, _, hne, _ => absurd rfl hne
  | (_, v) :: es, 0, _, _, hsz => by
    simp only [sizeE] at hsz
    omega
  | [(k, v)], fuel + 1, rest, _, hsz => by
    have hszv : sizeJ v ≤ fuel := by
      simp only [sizeE] at hsz
      omega
    have hre : stringifyObj [(k, v)] ++ '\x7d' :: rest =
        '"' :: (escChars k.data ++ '"' :: (':' :: (stringifyChars v ++ '\x7d' :: rest))) := by
      simp [stringifyObj, strChars]
    simp only [parseMembers]
    rw [hre, skipWs_cons_of_not_ws (by decide)]
    have hps : parseStrChars
        ((escChars k.data ++ '"' :: (':' :: (stringifyChars v ++ '\x7d' :: rest))).length + 1)
        (escChars k.data ++ '"' :: (':' :: (stringifyChars v ++ '\x7d' :: rest))) =
        some (k.data, ':' :: (stringifyChars v ++ '\x7d' :: rest)) := by
      refine parseStrChars_escape k.data _ _ ?_
      have := escChars_length_le k.data
      simp only [List.length_append, List.length_cons]
      omega
    simp only [hps, skipWs_cons_of_not_ws (show isWsChar ':' = false by decide),
      skipWs_cons_of_not_ws (show isWsChar '\x7d' = false by decide),
      parseVal_stringify v fuel ('\x7d' :: rest) hszv
        (head_not_digit_of_cons (by decide) rest),
      string_mk_data]
  | (k, v) :: e2 :: es2, fuel + 1, rest, _, hsz => by
    have hszv : sizeJ v ≤ fuel := by
      simp only [sizeE] at hsz
      omega
    have hszr : sizeE (e2 :: es2) ≤ fuel := by
      simp only [sizeE] at hsz ⊢
      omega
    have hre : stringifyObj ((k, v) :: e2 :: es2) ++ '\x7d' :: rest =
        '"' :: (escChars k.data ++ '"' ::
          (':' :: (stringifyChars v ++ ',' :: (stringifyObj (e2 :: es2) ++ '\x7d' :: rest)))) := by
      simp [stringifyObj, strChars]
    simp only [parseMembers]
    rw [hre, skipWs_cons_of_not_ws (by decide)]
    have hps : parseStrChars
        ((escChars k.data ++ '"' ::
          (':' :: (stringifyChars v ++ ',' :: (stringifyObj (e2 :: es2) ++ '\x7d' :: rest)))).length + 1)
        (escChars k.data ++ '"' ::
          (':' :: (stringifyChars v ++ ',' :: (stringifyObj (e2 :: es2) ++ '\x7d' :: rest)))) =
        some (k.data, ':' :: (stringifyChars v ++ ',' :: (stringifyObj (e2 :: es2) ++ '\x7d' :: rest))) := by
      refine parseStrChars_escape k.data _ _ ?_
      have := escChars_length_le k.data
      simp only [List.length_append, List.length_cons]
      omega
    simp only [hps, skipWs_cons_of_not_ws (show isWsChar ':' = false by decide),
      skipWs_cons_of_not_ws (show isWsChar ',' = false by decide),
      parseVal_stringify v fuel (',' :: (stringifyObj (e2 :: es2) ++ '\x7d' :: rest)) hszv
        (head_not_digit_of_cons (by decide) _),
      parseMembers_stringify (e2 :: es2) fuel rest (by simp) hszr,
      string_mk_data]
    rfl
end

mutual
theorem sizeJ_le_length : ∀ d, sizeJ d ≤ (stringifyChars d).length
  | .null => by simp [sizeJ, stringifyChars]
  | .boolean true => by simp [sizeJ, stringifyChars]
  | .boolean false => by simp [sizeJ, stringifyChars]
  | .num n => by
    rcases natChars_cons n.natAbs with ⟨d0, ds, _, _, _, hnc⟩
    by_cases h : n < 0 <;>
      simp [sizeJ, stringifyChars, intChars, h, hnc]
  | .str s => by simp [sizeJ, stringifyChars, strChars]
  | .arr xs => by
    have := sizeL_le_length xs
    simp only [sizeJ, stringifyChars, List.length_cons, List.length_append,
      List.length_singleton]
    omega
  | .obj xs => by
    have := sizeE_le_length xs
    simp only [sizeJ, stringifyChars, List.length_cons, List.length_append,
      List.length_singleton]
    omega

theorem sizeL_le_length : ∀ xs, sizeL xs ≤ (stringifyArr xs).length + 1
  | [] => by simp [sizeL, stringifyArr]
  | [x] => by
    have := sizeJ_le_length x
    simp only [sizeL, stringifyArr]
    omega
  | x :: y :: ys => by
    have h1 := sizeJ_le_length x
    have h2 := sizeL_le_length (y :: ys)
    simp only [sizeL, stringifyArr, List.length_append, List.length_cons] at h2 ⊢
    omega

theorem sizeE_le_length : ∀ es, sizeE es ≤ (stringifyObj es).length + 1
  | [] => by simp [sizeE, stringifyObj]
  | [(k, v)] => by
    have := sizeJ_le_length v
    simp only [sizeE, stringifyObj, List.length_append, List.length_cons]
    omega
  | (k, v) :: e2 :: es2 => by
    have h1 := sizeJ_le_length v
    have h2 := sizeE_le_length (e2 :: es2)
    simp only [sizeE, stringifyObj, List.length_append, List.length_cons] at h2 ⊢
    omega
end

theorem parseJson_stringify (d : JSONValue) : parseJson (stringify d) = some d := by
  have h1 : parseVal ((stringifyChars d).length + 1) (stringifyChars d ++ []) =
      some (d, []) :=
    parseVal_stringify d ((stringifyChars d).length + 1) []
      (by have := sizeJ_le_length d; omega)
      (by intro c hc; simp at hc)
  rw [List.append_nil] at h1
  unfold parseJson stringify
  simp only [show (String.mk (stringifyChars d)).data = stringifyChars d from rfl, h1]
  rfl

/-! ## Rebuild pipeline equations -/

theorem rebuild_read_error_eq (deps : RebuildDeps) (st : RMState)
    (mods : List ModuleNode) {e : String} (hra : deps.readAndGroup = Except.error e) :
    rebuild deps st mods = ([.phaseReadAndGroup], Except.error e) := by
  unfold rebuild
  simp only [hra]

theorem rebuild_generate_error_eq (deps : RebuildDeps) (st : RMState)
    (mods : List ModuleNode) {g : JSONValue} {stats : ReadStats} {e : String}
    (hra : deps.readAndGroup = Except.ok (g, stats))
    (hgf : deps.generateFiles (canonicalize g) = Except.error e) :
    rebuild deps st mods =
      ((REvent.phaseReadAndGroup ::
        (if stats.filesRead > 0 || st.hasLogger then
          (if st.hasLogger then [REvent.logReadStats] else []) else [])) ++
        [REvent.phaseCanonicalize, REvent.phaseGenerateFiles], Except.error e) := by
  unfold rebuild
  simp only [hra, hgf]

theorem rebuild_ok_eq (deps : RebuildDeps) (st : RMState) (mods : List ModuleNode)
    {g : JSONValue} {stats : ReadStats} {genr : GenResult}
    (hra : deps.readAndGroup = Except.ok (g, stats))
    (hgf : deps.generateFiles (canonicalize g) = Except.ok genr) :
    rebuild deps st mods =
      ((REvent.phaseReadAndGroup ::
        (if stats.filesRead > 0 || st.hasLogger then
          (if st.hasLogger then [REvent.logReadStats] else []) else [])) ++
        [REvent.phaseCanonicalize, REvent.phaseGenerateFiles] ++
        (if st.hasLogger then [REvent.logGenerateStats] else []) ++
        [REvent.phaseInvalidateModule (invalidateModule st mods).1] ++
        (if st.hasCallback then
          [REvent.callbackInvoked (invalidateModule st mods).2 (canonicalize g)
            (stringify (canonicalize g))] else []) ++
        (if st.hasLogger then [REvent.logRebuildComplete] else []),
       Except.ok { modules := (invalidateModule st mods).2.getD [],
                   grouped := canonicalize g,
                   jsonText := stringify (canonicalize g) }) := by
  unfold rebuild
  simp only [hra, hgf]

/-! ## Invalidation equations -/

theorem invalidateModule_no_wiring {st : RMState} (mods : List ModuleNode)
    (h : st.serverRef = false ∨ jsTruthyStr st.resolvedVirtualId = false) :
    invalidateModule st mods = (logIf st.hasLogger .warnWiringMissing, none) := by
  unfold invalidateModule
  rcases h with h | h <;> simp [h]

theorem invalidateModule_wired {st : RMState} (mods : List ModuleNode)
    (hs : st.serverRef = true) (hr : jsTruthyStr st.resolvedVirtualId = true) :
    invalidateModule st mods =
      ((match st.environment with
        | some env => (if env.hasModuleGraph then [InvEff.invalidateAll] else []) ++
            (if env.hasHot then [InvEff.hotSendFullReload] else [])
        | none => []) ++ logIf st.hasLogger .infoReload,
       some (mods.filter (moduleMatches (st.resolvedVirtualId.getD " ")))) := by
  unfold invalidateModule
  simp [hs, hr, jsTruthyArr]

/-! ## Debounce machine equations -/

theorem debouncedRebuildStep_fast (rb : Except String RebuildResult) (now : Nat)
    (m : DebounceMachine) (hne : m.lastRebuildCall ≠ 0)
    (hge : MAX_WAIT_MS ≤ now - m.lastRebuildCall) :
    debouncedRebuildStep rb now m =
      { rebuildTimer := none, lastRebuildCall := 0,
        promises := m.promises ++ [settleWith rb], execs := m.execs + 1 } := by
  unfold debouncedRebuildStep
  simp [hne, hge]

theorem debouncedRebuildStep_debounce (rb : Except String RebuildResult) (now : Nat)
    (m : DebounceMachine) (hne : m.lastRebuildCall ≠ 0)
    (hlt : now - m.lastRebuildCall < MAX_WAIT_MS) :
    debouncedRebuildStep rb now m =
      { rebuildTimer := some m.promises.length, lastRebuildCall := m.lastRebuildCall,
        promises := m.promises ++ [.pending], execs := m.execs } := by
  unfold debouncedRebuildStep
  simp [hne, Nat.not_le_of_lt hlt]

theorem debouncedRebuildStep_first (rb : Except String RebuildResult) (now : Nat)
    (m : DebounceMachine) (h0 : m.lastRebuildCall = 0) :
    debouncedRebuildStep rb now m =
      { rebuildTimer := some m.promises.length, lastRebuildCall := now,
        promises := m.promises ++ [.pending], execs := m.execs } := by
  unfold debouncedRebuildStep
  have hcond : ¬ MAX_WAIT_MS = 0 := by decide
  simp [h0, hcond]

theorem timerFireStep_ok (r : RebuildResult) (m : DebounceMachine) (cid : Nat)
    (ht : m.rebuildTimer = some cid) :
    timerFireStep (Except.ok r) m =
      { rebuildTimer := none, lastRebuildCall := 0,
        promises := m.promises.set cid (.resolvedWith r), execs := m.execs + 1 } := by
  unfold timerFireStep
  simp [ht]

theorem timerFireStep_error (e : String) (m : DebounceMachine) (cid : Nat)
    (ht : m.rebuildTimer = some cid) :
    timerFireStep (Except.error e) m =
      { rebuildTimer := none, lastRebuildCall := 0,
        promises := m.promises, execs := m.execs + 1 } := by
  unfold timerFireStep
  simp [ht]

theorem runCalls_debounce :
    ∀ (rb : Except String RebuildResult) (ts : List Nat) (m : DebounceMachine),
      m.lastRebuildCall ≠ 0 → (∀ t ∈ ts, t - m.lastRebuildCall < MAX_WAIT_MS) →
      runCalls rb ts m =
        { rebuildTimer :=
            if ts.isEmpty then m.rebuildTimer
            else some (m.promises.length + ts.length - 1),
          lastRebuildCall := m.lastRebuildCall,
          promises := m.promises ++ List.replicate ts.length PromiseStatus.pending,
          execs := m.execs }
  | _, [], m, _, _ => by simp [runCalls]
  | rb, t :: ts, m, hne, hwin => by
    have hstep := debouncedRebuildStep_debounce rb t m hne (hwin t (by simp))
    have hrec := runCalls_debounce rb ts
      { rebuildTimer := some m.promises.length, lastRebuildCall := m.lastRebuildCall,
        promises := m.promises ++ [.pending], execs := m.execs }
      hne (fun x hx => hwin x (by simp [hx]))
    simp only [runCalls, hstep, hrec]
    cases ts with
    | nil => simp
    | cons t2 ts2 =>
      have harith : m.promises.length + 1 + (ts2.length + 1) - 1 =
          m.promises.length + (ts2.length + 1 + 1) - 1 := by omega
      simp only [List.isEmpty_cons, List.length_append, List.length_cons,
        List.length_singleton, List.length_replicate, List.append_assoc,
        List.singleton_append, List.replicate_succ]
      simp [harith]

theorem le_getLast_of_sorted :
    ∀ (l : List Nat) (h : l ≠ []), List.Sorted (· ≤ ·) l → ∀ t ∈ l, t ≤ l.getLast h
  | [], h, _, _, _ => absurd rfl h
  | [x], _, _, t, ht => by
    simp at ht
    simp [ht, List.getLast]
  | x :: y :: ys, _, hs, t, ht => by
    have hs' : List.Sorted (· ≤ ·) (y :: ys) := hs.of_cons
    have hlast : (x :: y :: ys).getLast (by simp) = (y :: ys).getLast (by simp) :=
      List.getLast_cons (by simp)
    rcases List.mem_cons.mp ht with h1 | h1
    · subst h1
      have hmem : (y :: ys).getLast (by simp) ∈ y :: ys := List.getLast_mem _
      have hle : t ≤ (y :: ys).getLast (by simp) :=
        (List.pairwise_cons.mp hs).1 _ hmem
      rw [hlast]
      exact hle
    · rw [hlast]
      exact le_getLast_of_sorted (y :: ys) (by simp) hs' t h1

theorem replicate_set_last {α : Type} (p x : α) :
    ∀ n, (List.replicate (n + 1) p).set n x = List.replicate n p ++ [x]
  | 0 => rfl
  | n + 1 => by
    rw [List.replicate_succ, List.set_cons_succ, replicate_set_last p x n,
      List.replicate_succ]
    simp

theorem runCalls_burst (rb : Except String RebuildResult) (t0 : Nat) (ts : List Nat)
    (hpos : 0 < t0) (hs : List.Sorted (· ≤ ·) (t0 :: ts))
    (hwin : ∀ t ∈ t0 :: ts, (t0 :: ts).getLast (by simp) - t < DEBOUNCE_MS) :
    runCalls rb (t0 :: ts) initMachine =
      { rebuildTimer := some ts.length, lastRebuildCall := t0,
        promises := List.replicate (ts.length + 1) PromiseStatus.pending, execs := 0 } := by
  have hm1 : debouncedRebuildStep rb t0 initMachine =
      { rebuildTimer := some 0, lastRebuildCall := t0, promises := [.pending],
        execs := 0 } := by
    simpa [initMachine] using debouncedRebuildStep_first rb t0 initMachine rfl
  have hbound : ∀ t ∈ ts, t - t0 < MAX_WAIT_MS := by
    intro t ht
    have hlast := le_getLast_of_sorted (t0 :: ts) (by simp) hs t (by simp [ht])
    have hw0 := hwin t0 (by simp)
    have hd : DEBOUNCE_MS = 300 := rfl
    have hm : MAX_WAIT_MS = 2000 := rfl
    omega
  have hrec := runCalls_debounce rb ts
    { rebuildTimer := some 0, lastRebuildCall := t0, promises := [.pending], execs := 0 }
    (by simpa using Nat.pos_iff_ne_zero.mp hpos) hbound
  have hcalls : runCalls rb (t0 :: ts) initMachine =
      runCalls rb ts (debouncedRebuildStep rb t0 initMachine) := rfl
  rw [hcalls, hm1, hrec]
  cases ts with
  | nil => simp
  | cons t2 ts2 =>
    have harith : 1 + (ts2.length + 1) - 1 = ts2.length + 1 := by omega
    simp [harith, List.replicate_succ]

/-- Claim C3: when `debouncedRebuild` is called while a pending window is
active (`lastRebuildCall = t0 ≠ 0`) and the elapsed time since that window
start already exceeds the max-wait threshold (`MAX_WAIT_MS`, default 2000 ms),
the call clears all pending state (the armed timer and the pending-window
start), executes `rebuild` immediately (one more execution), and the caller's
promise settles with that rebuild's outcome. -/
theorem claimC3 (rb : Except String RebuildResult) (now t0 : Nat) (m : DebounceMachine)
    (h0 : m.lastRebuildCall = t0) (hne : t0 ≠ 0) (hgt : MAX_WAIT_MS < now - t0) :
    debouncedRebuildStep rb now m =
      { rebuildTimer := none, lastRebuildCall := 0,
        promises := m.promises ++ [settleWith rb], execs := m.execs + 1 } := by
  subst h0
  exact debouncedRebuildStep_fast rb now m hne (Nat.le_of_lt hgt)

/-- Witness for C3: a call at time 3000 with a window that started at time 1
and an armed timer for caller 0 immediately rebuilds and resolves caller 1. -/
theorem claimC3_witness :
    debouncedRebuildStep (Except.ok ⟨[], JSONValue.null, "null"⟩) 3000
      ⟨some 0, 1, [.pending], 0⟩ =
      { rebuildTimer := none, lastRebuildCall := 0,
        promises := [PromiseStatus.pending,
          PromiseStatus.resolvedWith ⟨[], JSONValue.null, "null"⟩],
        execs := 1 } :=
  claimC3 (Except.ok ⟨[], JSONValue.null, "null"⟩) 3000 1 ⟨some 0, 1, [.pending], 0⟩
    rfl (by decide) (by decide)

/-- Claim C4: N `debouncedRebuild` triggers, all fired within less than the
debounce window of the window's last trigger (with a monotone positive clock),
run the read/generate/invalidate pipeline exactly once: no rebuild executes
while the calls coalesce (each call cancels the previously armed timer,
leaving only the last caller's timer armed), and the one remaining timer fires
exactly one rebuild. -/
theorem claimC4 (rb : Except String RebuildResult) (t0 : Nat) (ts : List Nat)
    (hpos : 0 < t0) (hs : List.Sorted (· ≤ ·) (t0 :: ts))
    (hwin : ∀ t ∈ t0 :: ts, (t0 :: ts).getLast (by simp) - t < DEBOUNCE_MS) :
    (runCalls rb (t0 :: ts) initMachine).execs = 0 ∧
    (runCalls rb (t0 :: ts) initMachine).rebuildTimer = some ts.length ∧
    (timerFireStep rb (runCalls rb (t0 :: ts) initMachine)).execs = 1 := by
  rw [runCalls_burst rb t0 ts hpos hs hwin]
  refine ⟨rfl, rfl, ?_⟩
  rfl

/-- Witness for C4 with two triggers at times 1 and 2. -/
theorem claimC4_witness :
    (runCalls (Except.ok ⟨[], JSONValue.null, "null"⟩) [1, 2] initMachine).execs = 0 ∧
    (runCalls (Except.ok ⟨[], JSONValue.null, "null"⟩) [1, 2] initMachine).rebuildTimer =
      some 1 ∧
    (timerFireStep (Except.ok ⟨[], JSONValue.null, "null"⟩)
      (runCalls (Except.ok ⟨[], JSONValue.null, "null"⟩) [1, 2] initMachine)).execs = 1 :=
  claimC4 (Except.ok ⟨[], JSONValue.null, "null"⟩) 1 [2] (by decide)
    (by simp) (by decide)

/-- Claim C2 is refuted: in a coalesced window with two callers (times 1 and
2), the single rebuild completes (one execution) but only the second caller's
promise is resolved; the first caller's promise — whose timer was cleared
together with its only `resolve` handle — stays pending forever, although the
claim says every caller's promise resolves with the rebuild result. -/
theorem claimC2_counterexample :
    (timerFireStep (Except.ok ⟨[], JSONValue.null, "null"⟩)
        (runCalls (Except.ok ⟨[], JSONValue.null, "null"⟩) [1, 2] initMachine)).execs = 1 ∧
    (timerFireStep (Except.ok ⟨[], JSONValue.null, "null"⟩)
        (runCalls (Except.ok ⟨[], JSONValue.null, "null"⟩) [1, 2] initMachine)).promises =
      [PromiseStatus.pending,
       PromiseStatus.resolvedWith ⟨[], JSONValue.null, "null"⟩] :=
  ⟨rfl, rfl⟩

/-- Claim C2 as amended: of all callers in one coalesced debounce window, only
the last caller's promise resolves with the result of the single underlying
rebuild once it completes; every earlier caller's promise remains pending
forever (its timer was cleared together with the only handle to its
`resolve`). -/
theorem claimC2 (r : RebuildResult) (t0 : Nat) (ts : List Nat)
    (hpos : 0 < t0) (hs : List.Sorted (· ≤ ·) (t0 :: ts))
    (hwin : ∀ t ∈ t0 :: ts, (t0 :: ts).getLast (by simp) - t < DEBOUNCE_MS) :
    (timerFireStep (Except.ok r)
        (runCalls (Except.ok r) (t0 :: ts) initMachine)).promises =
      List.replicate ts.length PromiseStatus.pending ++
        [PromiseStatus.resolvedWith r] := by
  rw [runCalls_burst (Except.ok r) t0 ts hpos hs hwin]
  rw [timerFireStep_ok r _ ts.length rfl]
  exact replicate_set_last PromiseStatus.pending (PromiseStatus.resolvedWith r) ts.length

/-- Witness for the amended C2 with two callers at times 1 and 2. -/
theorem claimC2_witness :
    (timerFireStep (Except.ok ⟨[], JSONValue.null, "null"⟩)
        (runCalls (Except.ok ⟨[], JSONValue.null, "null"⟩) [1, 2] initMachine)).promises =
      [PromiseStatus.pending,
       PromiseStatus.resolvedWith ⟨[], JSONValue.null, "null"⟩] :=
  claimC2 ⟨[], JSONValue.null, "null"⟩ 1 [2] (by decide) (by simp) (by decide)

theorem rebuild_ok_jsonText (deps : RebuildDeps) (st : RMState) (mods : List ModuleNode)
    (tr : List REvent) (r : RebuildResult)
    (h : rebuild deps st mods = (tr, Except.ok r)) :
    r.jsonText = stringify r.grouped := by
  cases hra : deps.readAndGroup with
  | error e =>
    rw [rebuild_read_error_eq deps st mods hra] at h
    simp at h
  | ok p =>
    obtain ⟨g0, stats⟩ := p
    cases hgf : deps.generateFiles (canonicalize g0) with
    | error e =>
      rw [rebuild_generate_error_eq deps st mods hra hgf] at h
      simp at h
    | ok genr =>
      rw [rebuild_ok_eq deps st mods hra hgf] at h
      simp only [Prod.mk.injEq, Except.ok.injEq] at h
      rw [← h.2]

theorem rebuild_callback_mem (deps : RebuildDeps) (st : RMState) (mods : List ModuleNode)
    (tr : List REvent) (r : RebuildResult)
    (h : rebuild deps st mods = (tr, Except.ok r)) :
    ∀ mr g s, REvent.callbackInvoked mr g s ∈ tr →
      g = r.grouped ∧ s = r.jsonText ∧ mr = (invalidateModule st mods).2 := by
  cases hra : deps.readAndGroup with
  | error e =>
    rw [rebuild_read_error_eq deps st mods hra] at h
    simp at h
  | ok p =>
    obtain ⟨g0, stats⟩ := p
    cases hgf : deps.generateFiles (canonicalize g0) with
    | error e =>
      rw [rebuild_generate_error_eq deps st mods hra hgf] at h
      simp only [Prod.mk.injEq, Except.error.injEq] at h
      intro mr g s hm
      rw [← h.1] at hm
      simp at hm
    | ok genr =>
      rw [rebuild_ok_eq deps st mods hra hgf] at h
      simp only [Prod.mk.injEq, Except.ok.injEq] at h
      obtain ⟨htr, hr⟩ := h
      subst htr
      subst hr
      intro mr g s hm
      split_ifs at hm <;> simp_all

/-- Claim C5 is refuted on the "returns the same triple it passed to the
completion callback" part: when the invalidation step is skipped (server
wiring absent), the callback receives the cache with `modules` equal to the
raw `invalidateModule` return value `undefined` (`none`), while the caller of
`rebuild` receives `modules` defaulted to the empty list (`?? []`), so the
callback triple and the returned triple differ. -/
theorem claimC5_counterexample :
    rebuild ⟨Except.ok (JSONValue.obj [], ⟨0, 0⟩), fun _ => Except.ok ⟨0, 0, []⟩⟩
        ⟨false, none, none, false, true⟩ [] =
      ([REvent.phaseReadAndGroup, REvent.phaseCanonicalize, REvent.phaseGenerateFiles,
        REvent.phaseInvalidateModule [],
        REvent.callbackInvoked none (JSONValue.obj []) (stringify (JSONValue.obj []))],
       Except.ok ⟨[], JSONValue.obj [], stringify (JSONValue.obj [])⟩) ∧
    (none : Option (List ModuleNode)) ≠ some ([] : List ModuleNode) :=
  ⟨rfl, by simp⟩

/-- Claim C5 as amended: every `rebuild` invocation whose collaborators
succeed runs the four phases read/group, canonicalize, generate, invalidate in
that strict order and then invokes the configured completion callback with
`{modules, grouped, jsonText}`; the caller receives the same `grouped` and
`jsonText`, and the callback's `modules` with the empty list substituted when
invalidation returned `undefined`. -/
theorem claimC5 (deps : RebuildDeps) (st : RMState) (mods : List ModuleNode)
    (tr : List REvent) (r : RebuildResult)
    (hcb : st.hasCallback = true)
    (h : rebuild deps st mods = (tr, Except.ok r)) :
    ∃ effs mr,
      tr.filter isPipelineEvent =
        [REvent.phaseReadAndGroup, REvent.phaseCanonicalize, REvent.phaseGenerateFiles,
         REvent.phaseInvalidateModule effs,
         REvent.callbackInvoked mr r.grouped r.jsonText] ∧
      r.modules = mr.getD [] := by
  cases hra : deps.readAndGroup with
  | error e =>
    rw [rebuild_read_error_eq deps st mods hra] at h
    simp at h
  | ok p =>
    obtain ⟨g0, stats⟩ := p
    cases hgf : deps.generateFiles (canonicalize g0) with
    | error e =>
      rw [rebuild_generate_error_eq deps st mods hra hgf] at h
      simp at h
    | ok genr =>
      rw [rebuild_ok_eq deps st mods hra hgf] at h
      simp only [Prod.mk.injEq, Except.ok.injEq] at h
      refine ⟨(invalidateModule st mods).1, (invalidateModule st mods).2, ?_, ?_⟩
      · rw [← h.1, ← h.2]
        split_ifs <;> simp [isPipelineEvent, hcb]
      · rw [← h.2]

/-- Witness for the amended C5 at a concrete dependency set with the wiring
present. -/
theorem claimC5_witness :
    ∃ effs mr,
      ([REvent.phaseReadAndGroup, REvent.phaseCanonicalize, REvent.phaseGenerateFiles,
        REvent.phaseInvalidateModule [InvEff.invalidateAll, InvEff.hotSendFullReload],
        REvent.callbackInvoked (some []) (JSONValue.obj [])
          (stringify (JSONValue.obj []))] : List REvent).filter isPipelineEvent =
        [REvent.phaseReadAndGroup, REvent.phaseCanonicalize, REvent.phaseGenerateFiles,
         REvent.phaseInvalidateModule effs,
         REvent.callbackInvoked mr (JSONValue.obj []) (stringify (JSONValue.obj []))] ∧
      ([] : List ModuleNode) = mr.getD [] :=
  claimC5 ⟨Except.ok (JSONValue.obj [], ⟨1, 1⟩), fun _ => Except.ok ⟨1, 1, []⟩⟩
    ⟨true, some "vid", some ⟨true, true⟩, false, true⟩ []
    [REvent.phaseReadAndGroup, REvent.phaseCanonicalize, REvent.phaseGenerateFiles,
     REvent.phaseInvalidateModule [InvEff.invalidateAll, InvEff.hotSendFullReload],
     REvent.callbackInvoked (some []) (JSONValue.obj []) (stringify (JSONValue.obj []))]
    ⟨[], JSONValue.obj [], stringify (JSONValue.obj [])⟩ rfl rfl

/-- Claim C6 is refuted on the promise part: with an aggregation collaborator
that throws, the debounced (timer-path) rebuild runs and throws — one
execution completes with the error — yet the awaiting caller's promise is
still pending: it never settles with that error, because `resolve` is the only
settlement handle the executor exposes and it is reached only on success. -/
theorem claimC6_counterexample :
    (rebuild ⟨Except.error "boom", fun _ => Except.ok ⟨0, 0, []⟩⟩
        ⟨false, none, none, false, false⟩ []).2 = Except.error "boom" ∧
    (timerFireStep
        (rebuild ⟨Except.error "boom", fun _ => Except.ok ⟨0, 0, []⟩⟩
          ⟨false, none, none, false, false⟩ []).2
        (runCalls
          (rebuild ⟨Except.error "boom", fun _ => Except.ok ⟨0, 0, []⟩⟩
            ⟨false, none, none, false, false⟩ []).2 [1] initMachine)).execs = 1 ∧
    (timerFireStep
        (rebuild ⟨Except.error "boom", fun _ => Except.ok ⟨0, 0, []⟩⟩
          ⟨false, none, none, false, false⟩ []).2
        (runCalls
          (rebuild ⟨Except.error "boom", fun _ => Except.ok ⟨0, 0, []⟩⟩
            ⟨false, none, none, false, false⟩ []).2 [1] initMachine)).promises =
      [PromiseStatus.pending] :=
  ⟨rfl, rfl, rfl⟩

/-- Claim C6 as amended: errors thrown by the aggregation collaborator
(`readAndGroup`) or the generation collaborator (`generateFiles`) propagate
uncaught from `rebuild`, and a caller served by the max-wait fast path of
`debouncedRebuild` receives the error through its promise; but a caller in
the debounced timer path never has its promise settle when the rebuild errors
(the rejection happens inside the timer callback, unobservable through the
returned promise, which stays pending). -/
theorem claimC6 :
    (∀ (deps : RebuildDeps) (st : RMState) (mods : List ModuleNode) (e : String),
      deps.readAndGroup = Except.error e →
      rebuild deps st mods = ([.phaseReadAndGroup], Except.error e)) ∧
    (∀ (deps : RebuildDeps) (st : RMState) (mods : List ModuleNode)
      (g : JSONValue) (stats : ReadStats) (e : String),
      deps.readAndGroup = Except.ok (g, stats) →
      deps.generateFiles (canonicalize g) = Except.error e →
      (rebuild deps st mods).2 = Except.error e) ∧
    (∀ (e : String) (now : Nat) (m : DebounceMachine),
      m.lastRebuildCall ≠ 0 → MAX_WAIT_MS ≤ now - m.lastRebuildCall →
      debouncedRebuildStep (Except.error e) now m =
        { rebuildTimer := none, lastRebuildCall := 0,
          promises := m.promises ++ [PromiseStatus.rejectedWith e],
          execs := m.execs + 1 }) ∧
    (∀ (e : String) (m : DebounceMachine) (cid : Nat),
      m.rebuildTimer = some cid →
      timerFireStep (Except.error e) m =
        { rebuildTimer := none, lastRebuildCall := 0,
          promises := m.promises, execs := m.execs + 1 }) := by
  refine ⟨?_, ?_, ?_, ?_⟩
  · intro deps st mods e hra
    exact rebuild_read_error_eq deps st mods hra
  · intro deps st mods g stats e hra hgf
    rw [rebuild_generate_error_eq deps st mods hra hgf]
  · intro e now m hne hge
    exact debouncedRebuildStep_fast (Except.error e) now m hne hge
  · intro e m cid ht
    exact timerFireStep_error e m cid ht

/-- Witness for the amended C6 at concrete collaborators and machine states. -/
theorem claimC6_witness :
    rebuild ⟨Except.error "e1", fun _ => Except.ok ⟨0, 0, []⟩⟩
        ⟨false, none, none, false, false⟩ [] =
      ([.phaseReadAndGroup], Except.error "e1") ∧
    (rebuild ⟨Except.ok (JSONValue.obj [], ⟨0, 0⟩), fun _ => Except.error "e2"⟩
        ⟨false, none, none, false, false⟩ []).2 = Except.error "e2" ∧
    debouncedRebuildStep (Except.error "e3") 3000 ⟨none, 1, [], 0⟩ =
      { rebuildTimer := none, lastRebuildCall := 0,
        promises := [PromiseStatus.rejectedWith "e3"], execs := 1 } ∧
    timerFireStep (Except.error "e4") ⟨some 0, 5, [.pending], 2⟩ =
      { rebuildTimer := none, lastRebuildCall := 0,
        promises := [PromiseStatus.pending], execs := 3 } :=
  ⟨claimC6.1 ⟨Except.error "e1", fun _ => Except.ok ⟨0, 0, []⟩⟩
      ⟨false, none, none, false, false⟩ [] "e1" rfl,
   claimC6.2.1 ⟨Except.ok (JSONValue.obj [], ⟨0, 0⟩), fun _ => Except.error "e2"⟩
      ⟨false, none, none, false, false⟩ [] (JSONValue.obj []) ⟨0, 0⟩ "e2" rfl rfl,
   claimC6.2.2.1 "e3" 3000 ⟨none, 1, [], 0⟩ (by decide) (by decide),
   claimC6.2.2.2 "e4" ⟨some 0, 5, [.pending], 2⟩ 0 rfl⟩

/-- Claim C7 is refuted on the "a warning is logged" part for the
missing-environment case: with the server reference and resolved virtual id
present but no environment binding, invalidation is silently skipped through
the `?.` chains — no warning is emitted, only the reload info line — and
nothing fails. -/
theorem claimC7_counterexample :
    (invalidateModule ⟨true, some "vid", none, true, false⟩ []).1 =
      [InvEff.infoReload] ∧
    InvEff.warnWiringMissing ∉ (invalidateModule ⟨true, some "vid", none, true, false⟩ []).1 ∧
    InvEff.warnModuleNotFound ∉ (invalidateModule ⟨true, some "vid", none, true, false⟩ []).1 ∧
    InvEff.invalidateAll ∉ (invalidateModule ⟨true, some "vid", none, true, false⟩ []).1 :=
  ⟨rfl, by decide, by decide, by decide⟩

/-- Claim C7 as amended: before the late-bound wiring is complete the rebuild
degrades gracefully and never fails, but the warning is logged only for a
missing server reference or missing (falsy) resolved virtual identifier —
then invalidation is skipped and `undefined` returned; when only the
environment binding is missing, the graph invalidation and hot send are
silently skipped via optional chaining, with no warning. In all cases
`rebuild` still completes whenever its collaborators succeed. -/
theorem claimC7 :
    (∀ (st : RMState) (mods : List ModuleNode),
      st.serverRef = false ∨ jsTruthyStr st.resolvedVirtualId = false →
      invalidateModule st mods = (logIf st.hasLogger .warnWiringMissing, none)) ∧
    (∀ (st : RMState) (mods : List ModuleNode),
      st.serverRef = true → jsTruthyStr st.resolvedVirtualId = true →
      st.environment = none →
      InvEff.invalidateAll ∉ (invalidateModule st mods).1 ∧
      InvEff.hotSendFullReload ∉ (invalidateModule st mods).1 ∧
      InvEff.warnWiringMissing ∉ (invalidateModule st mods).1) ∧
    (∀ (deps : RebuildDeps) (st : RMState) (mods : List ModuleNode)
      (g : JSONValue) (stats : ReadStats) (genr : GenResult),
      deps.readAndGroup = Except.ok (g, stats) →
      deps.generateFiles (canonicalize g) = Except.ok genr →
      ∃ r, (rebuild deps st mods).2 = Except.ok r) := by
  refine ⟨?_, ?_, ?_⟩
  · intro st mods h
    exact invalidateModule_no_wiring mods h
  · intro st mods hs hr he
    rw [invalidateModule_wired mods hs hr]
    cases hl : st.hasLogger <;> simp [he, logIf, hl]
  · intro deps st mods g stats genr hra hgf
    rw [rebuild_ok_eq deps st mods hra hgf]
    exact ⟨_, rfl⟩

/-- Witness for the amended C7 at concrete wiring states. -/
theorem claimC7_witness :
    invalidateModule ⟨false, some "vid", none, true, false⟩
        [⟨some "vid", "u", "js"⟩] = ([InvEff.warnWiringMissing], none) ∧
    (InvEff.invalidateAll ∉
      (invalidateModule ⟨true, some "vid", none, true, false⟩ []).1 ∧
     InvEff.hotSendFullReload ∉
      (invalidateModule ⟨true, some "vid", none, true, false⟩ []).1 ∧
     InvEff.warnWiringMissing ∉
      (invalidateModule ⟨true, some "vid", none, true, false⟩ []).1) ∧
    (∃ r, (rebuild ⟨Except.ok (JSONValue.obj [], ⟨0, 0⟩), fun _ => Except.ok ⟨0, 0, []⟩⟩
      ⟨false, none, none, false, false⟩ []).2 = Except.ok r) :=
  ⟨claimC7.1 ⟨false, some "vid", none, true, false⟩ [⟨some "vid", "u", "js"⟩]
      (Or.inl rfl),
   claimC7.2.1 ⟨true, some "vid", none, true, false⟩ [] rfl rfl rfl,
   claimC7.2.2 ⟨Except.ok (JSONValue.obj [], ⟨0, 0⟩), fun _ => Except.ok ⟨0, 0, []⟩⟩
      ⟨false, none, none, false, false⟩ [] (JSONValue.obj []) ⟨0, 0⟩ ⟨0, 0, []⟩ rfl rfl⟩

/-- Claim C8: for every completed rebuild, the serialized `jsonText` of the
returned result round-trips through JSON parsing to exactly the canonical
document `grouped` of that result, and the cache handed to the completion
callback round-trips the same way. -/
theorem claimC8 (deps : RebuildDeps) (st : RMState) (mods : List ModuleNode)
    (tr : List REvent) (r : RebuildResult)
    (h : rebuild deps st mods = (tr, Except.ok r)) :
    parseJson r.jsonText = some r.grouped ∧
    (∀ mr g s, REvent.callbackInvoked mr g s ∈ tr → parseJson s = some g) := by
  constructor
  · rw [rebuild_ok_jsonText deps st mods tr r h]
    exact parseJson_stringify r.grouped
  · intro mr g s hm
    obtain ⟨hg, hsx, _⟩ := rebuild_callback_mem deps st mods tr r h mr g s hm
    rw [hsx, hg, rebuild_ok_jsonText deps st mods tr r h]
    exact parseJson_stringify r.grouped

/-- Witness for C8 at a concrete locale document. -/
theorem claimC8_witness :
    parseJson (stringify (canonicalize (JSONValue.obj [("en", JSONValue.obj [("Greeting",
      JSONValue.obj [("message", JSONValue.str "Hi")])])]))) =
      some (canonicalize (JSONValue.obj [("en", JSONValue.obj [("Greeting",
        JSONValue.obj [("message", JSONValue.str "Hi")])])])) :=
  (claimC8
    ⟨Except.ok (JSONValue.obj [("en", JSONValue.obj [("Greeting",
        JSONValue.obj [("message", JSONValue.str "Hi")])])], ⟨1, 1⟩),
      fun _ => Except.ok ⟨1, 1, []⟩⟩
    ⟨true, some "vid", some ⟨true, true⟩, false, true⟩ []
    [REvent.phaseReadAndGroup, REvent.phaseCanonicalize, REvent.phaseGenerateFiles,
     REvent.phaseInvalidateModule [InvEff.invalidateAll, InvEff.hotSendFullReload],
     REvent.callbackInvoked (some [])
       (canonicalize (JSONValue.obj [("en", JSONValue.obj [("Greeting",
         JSONValue.obj [("message", JSONValue.str "Hi")])])]))
       (stringify (canonicalize (JSONValue.obj [("en", JSONValue.obj [("Greeting",
         JSONValue.obj [("message", JSONValue.str "Hi")])])])))]
    ⟨[], canonicalize (JSONValue.obj [("en", JSONValue.obj [("Greeting",
        JSONValue.obj [("message", JSONValue.str "Hi")])])]),
      stringify (canonicalize (JSONValue.obj [("en", JSONValue.obj [("Greeting",
        JSONValue.obj [("message", JSONValue.str "Hi")])])]))⟩
    rfl).1

/-- Claim C1 is refuted: with the server wiring present and a module list none
of whose ids contain the tracked virtual identifier, `invalidateModule` does
not throw, but it also does not log the no-match warning (a JS array is always
truthy, so `if (mod)` takes the match branch and the warning branch is dead
code), and it returns the empty filtered list — not the unfiltered input. -/
theorem claimC1_counterexample :
    invalidateModule ⟨true, some "vid", some ⟨true, true⟩, true, false⟩
        [⟨some "src/app.ts", "u", "js"⟩] =
      ([InvEff.invalidateAll, InvEff.hotSendFullReload, InvEff.infoReload], some []) ∧
    some ([] : List ModuleNode) ≠
      some [(⟨some "src/app.ts", "u", "js"⟩ : ModuleNode)] :=
  ⟨rfl, by simp⟩

/-- Claim C1 as amended: with the server wiring present, a module list with no
matching module makes `invalidateModule` take the (always-truthy) match
branch: it logs no warning, broadly invalidates the environment's module
graph, sends the full-reload hot event, logs the reload info line, does not
throw, and returns the empty filtered list rather than the unfiltered
input. -/
theorem claimC1 (st : RMState) (mods : List ModuleNode) (env : DevEnvironment)
    (hs : st.serverRef = true) (hr : jsTruthyStr st.resolvedVirtualId = true)
    (he : st.environment = some env) (hl : st.hasLogger = true)
    (hnm : mods.filter (moduleMatches (st.resolvedVirtualId.getD " ")) = []) :
    invalidateModule st mods =
      ((if env.hasModuleGraph then [InvEff.invalidateAll] else []) ++
        (if env.hasHot then [InvEff.hotSendFullReload] else []) ++ [InvEff.infoReload],
       some []) ∧
    InvEff.warnModuleNotFound ∉ (invalidateModule st mods).1 ∧
    InvEff.warnWiringMissing ∉ (invalidateModule st mods).1 := by
  rw [invalidateModule_wired mods hs hr]
  refine ⟨?_, ?_, ?_⟩
  · rw [he, hnm]
    simp [logIf, hl, List.append_assoc]
  · cases hmg : env.hasModuleGraph <;> cases hh : env.hasHot <;>
      simp [he, logIf, hl, hmg, hh]
  · cases hmg : env.hasModuleGraph <;> cases hh : env.hasHot <;>
      simp [he, logIf, hl, hmg, hh]

/-- Witness for the amended C1 at a concrete non-matching module list. -/
theorem claimC1_witness :
    invalidateModule ⟨true, some "vid", some ⟨true, true⟩, true, false⟩
        [⟨some "src/app.ts", "u", "js"⟩] =
      ((if true then [InvEff.invalidateAll] else []) ++
        (if true then [InvEff.hotSendFullReload] else []) ++ [InvEff.infoReload],
       some []) ∧
    InvEff.warnModuleNotFound ∉
      (invalidateModule ⟨true, some "vid", some ⟨true, true⟩, true, false⟩
        [⟨some "src/app.ts", "u", "js"⟩]).1 ∧
    InvEff.warnWiringMissing ∉
      (invalidateModule ⟨true, some "vid", some ⟨true, true⟩, true, false⟩
        [⟨some "src/app.ts", "u", "js"⟩]).1 :=
  claimC1 ⟨true, some "vid", some ⟨true, true⟩, true, false⟩
    [⟨some "src/app.ts", "u", "js"⟩] ⟨true, true⟩ rfl rfl rfl rfl (by decide)

/-- Claim C10: once the server reference and a truthy resolved virtual
identifier are set (and the environment with its module graph and hot channel
is bound), the no-match warning branch of `invalidateModule` is unreachable
for every input module list — the filtered array is always truthy — so the
module graph is broadly invalidated, a full-reload event is sent on the
environment's hot channel, and the filtered (possibly empty) list, not the
unfiltered input, is returned. -/
theorem claimC10 (st : RMState) (mods : List ModuleNode) (env : DevEnvironment)
    (hs : st.serverRef = true) (hr : jsTruthyStr st.resolvedVirtualId = true)
    (he : st.environment = some env) (hmg : env.hasModuleGraph = true)
    (hh : env.hasHot = true) :
    (invalidateModule st mods).2 =
      some (mods.filter (moduleMatches (st.resolvedVirtualId.getD " "))) ∧
    InvEff.invalidateAll ∈ (invalidateModule st mods).1 ∧
    InvEff.hotSendFullReload ∈ (invalidateModule st mods).1 ∧
    InvEff.warnModuleNotFound ∉ (invalidateModule st mods).1 := by
  rw [invalidateModule_wired mods hs hr]
  refine ⟨rfl, ?_, ?_, ?_⟩ <;>
    cases hl : st.hasLogger <;> simp [he, hmg, hh, logIf, hl]

/-- Witness for C10 at a wired state and a non-matching module list: the
returned list is the empty filtered list. -/
theorem claimC10_witness :
    (invalidateModule ⟨true, some "vid", some ⟨true, true⟩, true, false⟩
        [⟨some "src/app.ts", "u", "js"⟩]).2 =
      some ([⟨some "src/app.ts", "u", "js"⟩].filter
        (moduleMatches ((some "vid").getD " "))) ∧
    InvEff.invalidateAll ∈
      (invalidateModule ⟨true, some "vid", some ⟨true, true⟩, true, false⟩
        [⟨some "src/app.ts", "u", "js"⟩]).1 ∧
    InvEff.hotSendFullReload ∈
      (invalidateModule ⟨true, some "vid", some ⟨true, true⟩, true, false⟩
        [⟨some "src/app.ts", "u", "js"⟩]).1 ∧
    InvEff.warnModuleNotFound ∉
      (invalidateModule ⟨true, some "vid", some ⟨true, true⟩, true, false⟩
        [⟨some "src/app.ts", "u", "js"⟩]).1 :=
  claimC10 ⟨true, some "vid", some ⟨true, true⟩, true, false⟩
    [⟨some "src/app.ts", "u", "js"⟩] ⟨true, true⟩ rfl rfl rfl rfl rfl
